import Mathlib

/-!
Verification development for the `shinonybot` character generator.

The repository has three source files: `database.py` (catalog loading and
markdown-table parsing), `generator.py` (randomized character-sheet assembly
and rendering) and `bot.py` (transport layer, out of scope).  The definitions
below are a shallow embedding of `database.py` and `generator.py`: Python
strings become `String`/`List Char`, Python `dict`s become association lists
with insertion-order/overwrite semantics, the injected `random.Random` source
becomes an explicit stream of naturals threaded through the computation, and
code paths that can raise become `Option`-valued.
-/

namespace Shinobi

/-! ## Random source model -/

/-- Modelled from the spec: the injected random source (`random.Random`).
A fixed stream of naturals together with a position; each primitive draw
reads `stream pos` and advances the position. -/
structure Rng where
  stream : Nat → Nat
  pos : Nat

/-- The next raw draw of the source. -/
def Rng.next (r : Rng) : Nat := r.stream r.pos

/-- Advance the source past one draw. -/
def Rng.advance (r : Rng) : Rng := ⟨r.stream, r.pos + 1⟩

/-- Modelled from the spec: `random.Random.choice(seq)` — a uniformly chosen
element of a nonempty sequence; raises `IndexError` (here: `none`) on an
empty sequence. -/
def Rng.choice (r : Rng) : List α → Option (α × Rng)
  | [] => none
  | a :: t =>
    some ((a :: t).get ⟨r.next % (a :: t).length, Nat.mod_lt _ (Nat.succ_pos t.length)⟩,
      r.advance)

/-- Modelled from the spec: `random.Random.randint(a, b)` — a uniform integer
in `[a, b]`. -/
def Rng.randint (r : Rng) (a b : Nat) : Nat × Rng :=
  (a + r.next % (b - a + 1), r.advance)

/-- One selection-sampling pass: repeatedly draw a position of the remaining
pool and remove it.  This is the draw-without-replacement core of
`random.Random.sample` (CPython switches between two algorithms by pool size;
both return elements at `k` pairwise distinct pool positions, which is the
behavior modelled here). -/
def Rng.sampleAux : Rng → List α → Nat → List α × Rng
  | r, _, 0 => ([], r)
  | r, [], _ + 1 => ([], r)
  | r, a :: t, k + 1 =>
    let j := r.next % (a :: t).length
    let x := (a :: t).get ⟨j, Nat.mod_lt _ (Nat.succ_pos t.length)⟩
    let rest := Rng.sampleAux r.advance ((a :: t).eraseIdx j) k
    (x :: rest.1, rest.2)

/-- Modelled from the spec: `random.Random.sample(population, k)` — `k`
distinct positions drawn without replacement; raises `ValueError` (here:
`none`) when `k` exceeds the population size. -/
def Rng.sample (r : Rng) (pool : List α) (k : Nat) : Option (List α × Rng) :=
  if k ≤ pool.length then some (Rng.sampleAux r pool k) else none

/-! ## Generic list facts used by the sampling proofs -/

/-- Removing position `i` and re-consing the removed element permutes back. -/
theorem cons_get_eraseIdx_perm :
    ∀ (l : List α) (i : Nat) (h : i < l.length),
      (l.get ⟨i, h⟩ :: l.eraseIdx i).Perm l := by
  intro l
  induction l with
  | nil => intro i h; simp at h
  | cons a t ih =>
    intro i h
    cases i with
    | zero => simp [List.eraseIdx]
    | succ i =>
      have hi : i < t.length := by simpa using h
      have step : (t.get ⟨i, hi⟩ :: a :: t.eraseIdx i).Perm (a :: t.get ⟨i, hi⟩ :: t.eraseIdx i) :=
        List.Perm.swap _ _ _
      have tail : (a :: t.get ⟨i, hi⟩ :: t.eraseIdx i).Perm (a :: t) :=
        List.Perm.cons a (ih i hi)
      simpa [List.eraseIdx] using step.trans tail

theorem sampleAux_length (r : Rng) (pool : List α) (k : Nat) :
    (Rng.sampleAux r pool k).1.length = min k pool.length := by
  induction k generalizing r pool with
  | zero => simp [Rng.sampleAux]
  | succ k ih =>
    cases pool with
    | nil => simp [Rng.sampleAux]
    | cons a t =>
      have hj : r.next % (a :: t).length < (a :: t).length :=
        Nat.mod_lt _ (Nat.succ_pos t.length)
      have herase : ((a :: t).eraseIdx (r.next % (a :: t).length)).length + 1
          = (a :: t).length := List.length_eraseIdx_add_one hj
      simp only [List.length_cons] at herase
      simp only [Rng.sampleAux, List.length_cons, ih]
      omega

theorem sampleAux_subset (r : Rng) (pool : List α) (k : Nat) :
    ∀ x ∈ (Rng.sampleAux r pool k).1, x ∈ pool := by
  induction k generalizing r pool with
  | zero => simp [Rng.sampleAux]
  | succ k ih =>
    cases pool with
    | nil => simp [Rng.sampleAux]
    | cons a t =>
      intro x hx
      simp only [Rng.sampleAux, List.mem_cons] at hx
      rcases hx with hx | hx
      · subst hx; exact List.get_mem _ _ _
      · exact List.eraseIdx_subset _ _ (ih _ _ _ hx)

theorem sampleAux_perm (r : Rng) (pool : List α) (k : Nat) (h : pool.length = k) :
    (Rng.sampleAux r pool k).1.Perm pool := by
  induction k generalizing r pool with
  | zero =>
    have : pool = [] := List.length_eq_zero.mp h
    simp [this, Rng.sampleAux]
  | succ k ih =>
    cases pool with
    | nil => simp at h
    | cons a t =>
      have hj : r.next % (a :: t).length < (a :: t).length :=
        Nat.mod_lt _ (Nat.succ_pos t.length)
      have herase : ((a :: t).eraseIdx (r.next % (a :: t).length)).length + 1
          = (a :: t).length := List.length_eraseIdx_add_one hj
      have hlen : ((a :: t).eraseIdx (r.next % (a :: t).length)).length = k := by
        simp only [List.length_cons] at herase h
        simp only [List.length_cons]
        omega
      have tailPerm := ih r.advance _ hlen
      have consPerm := cons_get_eraseIdx_perm (a :: t) (r.next % (a :: t).length) hj
      simpa [Rng.sampleAux] using (List.Perm.cons _ tailPerm).trans consPerm

theorem sampleAux_nodup (r : Rng) (pool : List α) (k : Nat) (h : pool.Nodup) :
    (Rng.sampleAux r pool k).1.Nodup := by
  induction k generalizing r pool with
  | zero => simp [Rng.sampleAux]
  | succ k ih =>
    cases pool with
    | nil => simp [Rng.sampleAux]
    | cons a t =>
      have hj : r.next % (a :: t).length < (a :: t).length :=
        Nat.mod_lt _ (Nat.succ_pos t.length)
      have consPerm := cons_get_eraseIdx_perm (a :: t) (r.next % (a :: t).length) hj
      have hcons : ((a :: t).get ⟨r.next % (a :: t).length, hj⟩ ::
          (a :: t).eraseIdx (r.next % (a :: t).length)).Nodup :=
        consPerm.nodup_iff.mpr h
      rw [List.nodup_cons] at hcons
      have hrest := ih r.advance ((a :: t).eraseIdx (r.next % (a :: t).length)) hcons.2
      have hsub := sampleAux_subset r.advance
        ((a :: t).eraseIdx (r.next % (a :: t).length)) k
      simp only [Rng.sampleAux, List.nodup_cons]
      exact ⟨fun hx => hcons.1 (hsub _ hx), hrest⟩

/-! ## Selection primitives (`CharacterGenerator._pick_unique` / `_pick_one`) -/

/-- `CharacterGenerator._pick_unique(pool, count)`: empty pool or
non-positive count yield `[]`; otherwise `rng.sample` is called with
`min(count, len(population))`. -/
def pick_unique (r : Rng) (pool : List α) (count : Int) : Option (List α × Rng) :=
  if pool.isEmpty ∨ count ≤ 0 then some ([], r)
  else
    let population := pool
    let sample_size := min count.toNat population.length
    Rng.sample r population sample_size

/-- `CharacterGenerator._pick_one(pool)`: `None` on an empty pool, else a
uniform choice.  Unlike a bare `rng.choice`, this never fails. -/
def pick_one (r : Rng) (pool : List α) : Option α × Rng :=
  match Rng.choice r pool with
  | none => (none, r)
  | some (x, r') => (some x, r')

/-- Full behavioral description of `pick_unique`: it always succeeds, the
result has length `min count (pool size)`, draws from the pool, keeps
distinctness of a duplicate-free pool, and is a permutation of the whole pool
when `count` is at least the pool size. -/
theorem pick_unique_spec (r : Rng) (pool : List α) (count : Int) :
    ∃ l r', pick_unique r pool count = some (l, r') ∧
      l.length = min count.toNat pool.length ∧
      (∀ x ∈ l, x ∈ pool) ∧
      (pool.Nodup → l.Nodup) ∧
      ((pool.length : Int) ≤ count → l.Perm pool) ∧
      ((pool = [] ∨ count ≤ 0) → l = []) := by
  by_cases hbase : pool.isEmpty ∨ count ≤ 0
  · refine ⟨[], r, ?_, ?_, ?_, ?_, ?_, ?_⟩
    · simp only [pick_unique]
      rw [if_pos hbase]
    · rcases hbase with hb | hb
      · have : pool = [] := List.isEmpty_iff.mp hb
        simp [this]
      · have : count.toNat = 0 := Int.toNat_of_nonpos hb
        simp [this]
    · simp
    · simp
    · intro hcount
      rcases hbase with hb | hb
      · have : pool = [] := List.isEmpty_iff.mp hb
        simp [this]
      · have hlen : (pool.length : Int) ≤ 0 := le_trans hcount hb
        have : pool.length = 0 := by exact_mod_cast Nat.le_zero.mp (by exact_mod_cast hlen)
        simp [List.length_eq_zero.mp this]
    · intro _; rfl
  · push_neg at hbase
    obtain ⟨hne, hpos⟩ := hbase
    have hnenil : pool ≠ [] := fun h => hne (by simp [h])
    have hk : min count.toNat pool.length ≤ pool.length := Nat.min_le_right _ _
    refine ⟨(Rng.sampleAux r pool (min count.toNat pool.length)).1,
      (Rng.sampleAux r pool (min count.toNat pool.length)).2, ?_, ?_, ?_, ?_, ?_, ?_⟩
    · simp only [pick_unique, Rng.sample]
      rw [if_neg (by simp only [not_or, not_le]; exact ⟨hne, hpos⟩), if_pos hk]
    · rw [sampleAux_length]
      omega
    · exact sampleAux_subset r pool _
    · exact sampleAux_nodup r pool _
    · intro hcount
      have hc0 : (0 : Int) ≤ count := le_of_lt hpos
      have hle : pool.length ≤ count.toNat := (Int.le_toNat hc0).mpr hcount
      exact sampleAux_perm r pool _ (by omega)
    · intro hcase
      rcases hcase with hcase | hcase
      · exact absurd hcase hnenil
      · exact absurd hcase (not_le.mpr hpos)

/-! ## Python string semantics

Helpers mirroring the Python string operations the two source files use
(`str.strip`, `str.split`, `str.replace`, `str.lower`, `int(...)`,
`html.unescape`, format padding).  They operate on `List Char`, which matches
Python's code-point view of strings. -/

/-- Python whitespace (`str.split()` / `str.strip()` default set, ASCII part). -/
def isPyWS (c : Char) : Bool :=
  c = ' ' ∨ c = '\t' ∨ c = '\n' ∨ c = '\r' ∨ c = Char.ofNat 11 ∨ c = Char.ofNat 12

/-- `str.strip()` on code points. -/
def trimChars (l : List Char) : List Char :=
  ((l.dropWhile isPyWS).reverse.dropWhile isPyWS).reverse

/-- `str.strip()` on strings. -/
def pyStrip (s : String) : String := String.mk (trimChars s.data)

/-- `str.strip("|")`: remove every leading and trailing pipe character. -/
def stripPipes (l : List Char) : List Char :=
  ((l.dropWhile (· = '|')).reverse.dropWhile (· = '|')).reverse

/-- `str.split("|")`: split on every pipe, keeping empty fields. -/
def splitPipe : List Char → List (List Char)
  | [] => [[]]
  | c :: rest =>
    if c = '|' then [] :: splitPipe rest
    else
      match splitPipe rest with
      | [] => [[c]]
      | g :: gs => (c :: g) :: gs

/-- Accumulator pass behind `wordsChars`: collect the current word (reversed)
and flush it at each whitespace boundary. -/
def wordsAux : List Char → List Char → List (List Char)
  | acc, [] => if acc.isEmpty then [] else [acc.reverse]
  | acc, c :: rest =>
    if isPyWS c then
      if acc.isEmpty then wordsAux [] rest
      else acc.reverse :: wordsAux [] rest
    else wordsAux (c :: acc) rest

/-- `str.split()` (no argument): maximal runs of non-whitespace. -/
def wordsChars (l : List Char) : List (List Char) := wordsAux [] l

/-- `sep.join(parts)`. -/
def pyJoin (sep : String) : List String → String
  | [] => ""
  | [x] => x
  | x :: y :: rest => x ++ sep ++ pyJoin sep (y :: rest)

/-- `str.replace(pat, repl)` with a nonempty pattern (an empty pattern is
returned unchanged; the source only replaces nonempty literals).  The first
argument counts input characters still to be skipped after a match. -/
def replaceAux (pat repl : List Char) : Nat → List Char → List Char
  | _, [] => []
  | skip + 1, _ :: rest => replaceAux pat repl skip rest
  | 0, c :: rest =>
    if pat.isEmpty then c :: rest
    else if pat.isPrefixOf (c :: rest) then
      repl ++ replaceAux pat repl (pat.length - 1) rest
    else c :: replaceAux pat repl 0 rest

/-- `str.replace(pat, repl)` on code points. -/
def replaceSeq (pat repl l : List Char) : List Char :=
  replaceAux pat repl 0 l

/-- `str.replace` on strings. -/
def pyReplace (s pat repl : String) : String :=
  String.mk (replaceSeq pat.data repl.data s.data)

theorem replaceSeq_empty_pat (repl l : List Char) : replaceSeq [] repl l = l := by
  cases l with
  | nil => rfl
  | cons c rest => simp [replaceSeq, replaceAux]

/-- Modelled from the spec: `html.unescape` — "HTML entity sequences are
decoded".  This model decodes the common named entities and leaves any other
ampersand sequence unchanged (CPython additionally knows the full HTML5
entity list and numeric references). -/
def unescapeAux : Nat → List Char → List Char
  | _, [] => []
  | skip + 1, _ :: rest => unescapeAux skip rest
  | 0, c :: rest =>
    if c = '&' then
      if "amp;".data.isPrefixOf rest then '&' :: unescapeAux 4 rest
      else if "lt;".data.isPrefixOf rest then '<' :: unescapeAux 3 rest
      else if "gt;".data.isPrefixOf rest then '>' :: unescapeAux 3 rest
      else if "quot;".data.isPrefixOf rest then '"' :: unescapeAux 5 rest
      else if "#39;".data.isPrefixOf rest then Char.ofNat 39 :: unescapeAux 4 rest
      else if "nbsp;".data.isPrefixOf rest then Char.ofNat 160 :: unescapeAux 5 rest
      else '&' :: unescapeAux 0 rest
    else c :: unescapeAux 0 rest

def unescapeChars (l : List Char) : List Char := unescapeAux 0 l

/-- `html.unescape` on strings. -/
def pyUnescape (s : String) : String := String.mk (unescapeChars s.data)

/-- `str.lower()` for the alphabets appearing in the catalog: ASCII and
Russian Cyrillic (А–Я and Ё). -/
def pyLowerChar (c : Char) : Char :=
  if 'A' ≤ c ∧ c ≤ 'Z' then Char.ofNat (c.toNat + 32)
  else if Char.ofNat 0x410 ≤ c ∧ c ≤ Char.ofNat 0x42F then Char.ofNat (c.toNat + 32)
  else if c = Char.ofNat 0x401 then Char.ofNat 0x451
  else c

/-- `str.lower()` on strings. -/
def pyLower (s : String) : String := String.mk (s.data.map pyLowerChar)

/-- `a.startswith(b)`. -/
def pyStartsWith (s pre : String) : Bool := pre.data.isPrefixOf s.data

/-- Substring search scanning every suffix. -/
def containsAux (pat : List Char) : List Char → Bool
  | [] => pat.isEmpty
  | c :: rest => pat.isPrefixOf (c :: rest) || containsAux pat rest

/-- `b in a` (substring containment). -/
def pyContains (s sub : String) : Bool := containsAux sub.data s.data

/-- Digit run with single underscores between digits, as accepted by
`int(...)` after sign and whitespace handling. -/
def pyDigitsTail : List Char → Bool
  | [] => true
  | '_' :: c :: rest => c.isDigit && pyDigitsTail rest
  | '_' :: [] => false
  | c :: rest => c.isDigit && pyDigitsTail rest

/-- Numeric value of a digit run (underscores removed by the caller). -/
def digitsVal (l : List Char) : Nat :=
  l.foldl (fun acc c => acc * 10 + (c.toNat - '0'.toNat)) 0

/-- `int(s)`: strip whitespace, optional sign, then underscore-grouped digits;
any other shape raises `ValueError` (here: `none`).  CPython additionally
accepts non-ASCII digits, which the catalog never uses. -/
def pyInt (s : String) : Option Int :=
  let cs := trimChars s.data
  let (sgn, ds) : Int × List Char :=
    match cs with
    | '+' :: r => (1, r)
    | '-' :: r => (-1, r)
    | r => (1, r)
  match ds with
  | [] => none
  | c :: rest =>
    if c.isDigit && pyDigitsTail rest then
      some (sgn * (digitsVal ((c :: rest).filter (· ≠ '_')) : Int))
    else none

/-- `database._parse_int(value)`: `None`/empty recover to `None`, and a
`ValueError` from `int` also recovers to `None`. -/
def parse_int (value : Option String) : Option Int :=
  match value with
  | none => none
  | some v => if v = "" then none else pyInt v

/-- Digits of a natural, most significant first (fuel-driven so that the
kernel can evaluate it; the fuel `n + 1` always suffices). -/
def natDigitsAux : Nat → Nat → List Char
  | 0, _ => []
  | fuel + 1, n =>
    if n < 10 then [Char.ofNat ('0'.toNat + n)]
    else natDigitsAux fuel (n / 10) ++ [Char.ofNat ('0'.toNat + n % 10)]

/-- Digits of a natural, most significant first. -/
def natDigits (n : Nat) : List Char := natDigitsAux (n + 1) n

/-- Comma insertion behind `groupThrees`, walking the reversed digit list and
counting positions. -/
def groupAux : Nat → List Char → List Char
  | _, [] => []
  | cnt, c :: rest =>
    if cnt = 3 then ',' :: c :: groupAux 1 rest
    else c :: groupAux (cnt + 1) rest

/-- Insert `,` every three digits from the right (`f"{n:,}"` grouping). -/
def groupThrees (ds : List Char) : List Char :=
  (groupAux 0 ds.reverse).reverse

/-- `f"{p:,}"` for an integer price. -/
def pyCommaFormat (p : Int) : String :=
  let body := groupThrees (natDigits p.natAbs)
  String.mk (if p < 0 then '-' :: body else body)

/-- `str(n)` for the die roll. -/
def natToStr (n : Nat) : String := String.mk (natDigits n)

/-- `s.ljust(n)` / format padding `{s:<n}`: pad with spaces, never truncate. -/
def padRight (s : String) (n : Nat) : String :=
  s ++ String.mk (List.replicate (n - s.length) ' ')

/-- `c * n` repetition used for the box borders. -/
def repChar (c : Char) (n : Nat) : String := String.mk (List.replicate n c)

/-- Python truthiness fallback `a or b` for strings. -/
def pyOr (a b : String) : String := if a = "" then b else a

/-! ## Word wrapping (`textwrap.wrap`) -/

/-- Splitting pass behind `chunkWord`: collect the current piece (reversed)
with `room` characters of capacity left, flushing each full piece. -/
def chunksAux (width : Nat) : List Char → List Char → Nat → List (List Char)
  | [], acc, _ => if acc.isEmpty then [] else [acc.reverse]
  | c :: rest, acc, 0 => acc.reverse :: chunksAux width rest [c] (width - 1)
  | c :: rest, acc, room + 1 => chunksAux width rest (c :: acc) room

/-- Break a single overlong word into width-sized pieces
(`textwrap`'s `break_long_words` behavior). -/
def chunkWord (width : Nat) (w : List Char) : List (List Char) :=
  if width = 0 then [w]
  else if w.isEmpty then [w]
  else chunksAux width w [] width

/-- Greedy packing of chunks (each at most `width` long) into lines joined by
single spaces. -/
def packChunks (width : Nat) (cur : List Char) : List (List Char) → List (List Char)
  | [] => if cur.isEmpty then [] else [cur]
  | c :: rest =>
    if cur.isEmpty then packChunks width c rest
    else if cur.length + 1 + c.length ≤ width then packChunks width (cur ++ ' ' :: c) rest
    else cur :: packChunks width c rest

/-- Modelled from the spec: `textwrap.wrap(text, width)` — each section line is
"word-wrapped to the interior width".  Greedy fill of whitespace-separated
words, overlong words broken at the width; returns `[]` for whitespace-only
input.  (CPython places the head of an overlong word on the current partial
line and also breaks at hyphens; both differences only move break positions,
every produced line still fits the width.) -/
def pyWrap (width : Nat) (s : String) : List String :=
  let chunks := ((wordsChars s.data).map (chunkWord width)).flatten
  (packChunks width [] chunks).map String.mk

theorem chunksAux_le (width : Nat) (hw : 0 < width) :
    ∀ (input acc : List Char) (room : Nat), acc.length + room ≤ width →
      ∀ c ∈ chunksAux width input acc room, c.length ≤ width := by
  intro input
  induction input with
  | nil =>
    intro acc room hinv c hc
    simp only [chunksAux] at hc
    by_cases hae : acc.isEmpty
    · simp [hae] at hc
    · rw [if_neg hae] at hc
      simp only [List.mem_singleton] at hc
      subst hc
      simp only [List.length_reverse]
      omega
  | cons x rest ih =>
    intro acc room hinv c hc
    cases room with
    | zero =>
      simp only [chunksAux, List.mem_cons] at hc
      rcases hc with hc | hc
      · subst hc
        simp only [List.length_reverse]
        omega
      · refine ih [x] (width - 1) ?_ c hc
        simp only [List.length_singleton]
        omega
    | succ room =>
      refine ih (x :: acc) room ?_ c hc
      simp only [List.length_cons] at hinv ⊢
      omega

theorem chunkWord_le (width : Nat) (hw : 0 < width) (w : List Char) :
    ∀ c ∈ chunkWord width w, c.length ≤ width := by
  intro c hc
  simp only [chunkWord] at hc
  rw [if_neg (by omega)] at hc
  by_cases hwe : w.isEmpty
  · rw [if_pos hwe] at hc
    simp only [List.mem_singleton] at hc
    have hwnil : w = [] := by
      cases w with
      | nil => rfl
      | cons a t => simp at hwe
    rw [hc, hwnil]
    simp
  · rw [if_neg hwe] at hc
    exact chunksAux_le width hw w [] width (by simp) c hc

theorem packChunks_le (width : Nat) :
    ∀ (chunks : List (List Char)) (cur : List Char), cur.length ≤ width →
      (∀ c ∈ chunks, c.length ≤ width) →
      ∀ l ∈ packChunks width cur chunks, l.length ≤ width := by
  intro chunks
  induction chunks with
  | nil =>
    intro cur hcur _ l hl
    simp only [packChunks] at hl
    by_cases hce : cur.isEmpty
    · simp [hce] at hl
    · rw [if_neg hce] at hl
      simp only [List.mem_singleton] at hl
      subst hl
      exact hcur
  | cons c rest ih =>
    intro cur hcur hall l hl
    have hc : c.length ≤ width := hall c (List.mem_cons_self _ _)
    have hrest : ∀ x ∈ rest, x.length ≤ width := fun x hx => hall x (List.mem_cons_of_mem _ hx)
    simp only [packChunks] at hl
    by_cases hce : cur.isEmpty
    · rw [if_pos hce] at hl
      exact ih c hc hrest l hl
    · rw [if_neg hce] at hl
      by_cases hfit : cur.length + 1 + c.length ≤ width
      · rw [if_pos hfit] at hl
        refine ih (cur ++ ' ' :: c) ?_ hrest l hl
        simp only [List.length_append, List.length_cons]
        omega
      · rw [if_neg hfit] at hl
        simp only [List.mem_cons] at hl
        rcases hl with hl | hl
        · subst hl; exact hcur
        · exact ih c hc hrest l hl

theorem pyWrap_le (width : Nat) (hw : 0 < width) (s : String) :
    ∀ l ∈ pyWrap width s, l.length ≤ width := by
  intro l hl
  simp only [pyWrap, List.mem_map] at hl
  obtain ⟨cl, hcl, rfl⟩ := hl
  have hchunks : ∀ c ∈ ((wordsChars s.data).map (chunkWord width)).flatten,
      c.length ≤ width := by
    intro c hc
    simp only [List.mem_flatten, List.mem_map] at hc
    obtain ⟨group, ⟨w, _, rfl⟩, hcg⟩ := hc
    exact chunkWord_le width hw w c hcg
  have := packChunks_le width _ [] (by simp) hchunks cl hcl
  simpa using this

/-! ## Catalog records (`database.py` dataclasses) -/

structure Feat where
  id : Int
  name : String
  description : String
  type : String
  roll_code : String
deriving DecidableEq

structure InventoryItem where
  id : Int
  name : String
  description : String
  type : String
  price : Option Int
deriving DecidableEq

structure Skill where
  id : Int
  name : String
  description : String
  roll_code : String
deriving DecidableEq

structure Rank where
  id : Int
  name : String
  benefit : String
  mercenary : String
  xp_needed : String
deriving DecidableEq

structure Database where
  feats : List Feat
  inventory : List InventoryItem
  skills : List Skill
  ranks : List Rank
deriving DecidableEq

/-- `Database.feats_by_type`. -/
def Database.feats_by_type (db : Database) (type_name : String) : List Feat :=
  db.feats.filter (fun feat => feat.type = type_name)

/-- `Database.inventory_by_type`. -/
def Database.inventory_by_type (db : Database) (type_name : String) : List InventoryItem :=
  db.inventory.filter (fun item => item.type = type_name)

/-! ## Markdown table parsing (`database._parse_markdown_tables`)

A row mapping is a Python `dict`: an insertion-ordered association list where
inserting an existing key overwrites its value in place. -/

abbrev Row := List (String × String)

abbrev Tables := List (String × List Row)

/-- Python `dict` insertion: overwrite in place or append. -/
def dictInsert (d : Row) (k v : String) : Row :=
  if d.any (fun p => p.1 == k) then
    d.map (fun p => if p.1 == k then (k, v) else p)
  else d ++ [(k, v)]

/-- `row.get(key)` — `None` when absent. -/
def rowGet? (row : Row) (k : String) : Option String :=
  (row.find? (fun p => p.1 == k)).map (fun p => p.2)

/-- `row.get(key, default)`. -/
def rowGetD (row : Row) (k d : String) : String :=
  (rowGet? row k).getD d

/-- `tables.get(name, [])`. -/
def tablesGet (t : Tables) (k : String) : List Row :=
  ((t.find? (fun p => p.1 == k)).map (fun p => p.2)).getD []

/-- `tables.setdefault(name, []).extend(rows)`. -/
def tablesExtend (t : Tables) (k : String) (rows : List Row) : Tables :=
  if t.any (fun p => p.1 == k) then
    t.map (fun p => if p.1 == k then (p.1, p.2 ++ rows) else p)
  else t ++ [(k, rows)]

/-- `{header: cell for header, cell in zip(headers, cells)}`. -/
def rowFromCells (headers cells : List String) : Row :=
  (headers.zip cells).foldl (fun acc p => dictInsert acc p.1 p.2) []

/-- `[cell.strip() for cell in line.strip().strip("|").split("|")]`. -/
def splitCells (line : String) : List String :=
  (splitPipe (stripPipes (trimChars line.data))).map (fun cs => String.mk (trimChars cs))

/-- The inner data-row loop: consume lines while they start with a pipe,
skipping rows whose cell count differs from the header's, and return the
collected rows together with the first unconsumed line onward. -/
def parseRows (headers : List String) : List String → List Row × List String
  | [] => ([], [])
  | l :: rest =>
    if pyStartsWith l "|" then
      let cells := splitCells l
      if cells.length = headers.length then
        let res := parseRows headers rest
        (rowFromCells headers cells :: res.1, res.2)
      else parseRows headers rest
    else ([], l :: rest)

theorem parseRows_rem_le (headers : List String) :
    ∀ lines : List String, (parseRows headers lines).2.length ≤ lines.length := by
  intro lines
  induction lines with
  | nil => simp [parseRows]
  | cons l rest ih =>
    simp only [parseRows]
    by_cases hs : pyStartsWith l "|"
    · rw [if_pos hs]
      by_cases hc : (splitCells l).length = headers.length
      · rw [if_pos hc]
        exact Nat.le_succ_of_le ih
      · rw [if_neg hc]
        exact Nat.le_succ_of_le ih
    · rw [if_neg hs]

/-- Python truthiness of the `current_section` variable. -/
def sectionTruthy : Option String → Bool
  | none => false
  | some s => s ≠ ""

/-- The outer scanning loop of `_parse_markdown_tables`.  The fuel argument
makes the recursion structural; every step consumes at least one line, so
`lines.length + 1` units always suffice. -/
def parseTablesAux : Nat → List String → Option String → Tables → Tables
  | 0, _, _, acc => acc
  | fuel + 1, lines, cur, acc =>
    match lines with
    | [] => acc
    | l :: rest =>
      if pyStartsWith l "## " then
        parseTablesAux fuel rest (some (pyStrip (String.mk (l.data.drop 3)))) acc
      else if pyStartsWith l "|" ∧ sectionTruthy cur then
        match rest with
        | [] => acc
        | divider :: rest2 =>
          if pyContains divider "---" then
            let res := parseRows (splitCells l) rest2
            parseTablesAux fuel res.2 cur (tablesExtend acc (cur.getD "") res.1)
          else parseTablesAux fuel (divider :: rest2) cur acc
      else parseTablesAux fuel rest cur acc

/-- `database._parse_markdown_tables(lines)`. -/
def parse_markdown_tables (lines : List String) : Tables :=
  parseTablesAux (lines.length + 1) lines none []

/-- `database._clean_cell(value)`: line-break markup to newline, HTML entity
decode, strip. -/
def clean_cell (value : String) : String :=
  let v := pyReplace value "<br>" "\n"
  let v := pyReplace v "<br />" "\n"
  pyStrip (pyUnescape v)

/-! ## Catalog construction (`Database.load` body)

Each record constructor mirrors one comprehension in `Database.load`:
`row["ID"]` and `row["name"]` are mandatory subscript accesses (a missing key
or a non-integer id raises, failing the whole load), the other fields use
`row.get(...)` with defaults, and only `description` goes through
`_clean_cell`. -/

def buildFeat (row : Row) : Option Feat := do
  let idS ← rowGet? row "ID"
  let idV ← pyInt idS
  let nameS ← rowGet? row "name"
  pure { id := idV, name := pyStrip nameS,
         description := clean_cell (rowGetD row "description" ""),
         type := pyStrip (rowGetD row "type" ""),
         roll_code := pyStrip (rowGetD row "roll_code" "") }

def buildItem (row : Row) : Option InventoryItem := do
  let idS ← rowGet? row "ID"
  let idV ← pyInt idS
  let nameS ← rowGet? row "name"
  pure { id := idV, name := pyStrip nameS,
         description := clean_cell (rowGetD row "description" ""),
         type := pyStrip (rowGetD row "type" ""),
         price := parse_int (rowGet? row "price") }

def buildSkill (row : Row) : Option Skill := do
  let idS ← rowGet? row "ID"
  let idV ← pyInt idS
  let nameS ← rowGet? row "name"
  pure { id := idV, name := pyStrip nameS,
         description := clean_cell (rowGetD row "description" ""),
         roll_code := pyStrip (rowGetD row "roll_code" "") }

def buildRank (row : Row) : Option Rank := do
  let idS ← rowGet? row "ID"
  let idV ← pyInt idS
  let nameS ← rowGet? row "name"
  pure { id := idV, name := pyStrip nameS,
         benefit := pyStrip (rowGetD row "benefit" ""),
         mercenary := pyStrip (rowGetD row "mercenary" ""),
         xp_needed := pyStrip (rowGetD row "xp_needed" "") }

def featSection : String := "Черты и таблицы (shinobiSite_feat)"

def inventorySection : String := "Снаряжение и услуги (shinobiSite_inventory)"

def skillSection : String := "Навыки (shinobiSite_skill)"

def rankSection : String := "Ранги (shinobiSite_rang)"

/-- The record-building part of `Database.load`: all four comprehensions, in
source order, each failing the whole load on a bad mandatory field. -/
def Database.build (tables : Tables) : Option Database := do
  let feats ← (tablesGet tables featSection).mapM buildFeat
  let inventory ← (tablesGet tables inventorySection).mapM buildItem
  let skills ← (tablesGet tables skillSection).mapM buildSkill
  let ranks ← (tablesGet tables rankSection).mapM buildRank
  pure { feats, inventory, skills, ranks }

/-! ## Memoization of `Database.load`

`Database.load` is decorated with `functools.lru_cache(maxsize=1)` keyed by
the `base_path` argument.  The model below keeps the observable effects: the
single cache slot, the log of file reads actually performed, and the identity
of the returned in-memory object (a fresh tag per actual read — two loads
that both hit the file return two distinct instances). -/

structure LoadState where
  cache : Option (String × Nat)
  reads : List String
deriving DecidableEq

/-- The initial per-process state: empty cache, no I/O performed. -/
def LoadState.init : LoadState := ⟨none, []⟩

/-- One call of the memoized `Database.load(base_path)`: answer from the
one-entry cache when the key matches, otherwise read the file (logging the
I/O), produce a fresh instance and overwrite the cache slot. -/
def loadCall (path : String) (st : LoadState) : Nat × LoadState :=
  match st.cache with
  | some (p, v) =>
    if p = path then (v, st)
    else
      let fresh := st.reads.length
      (fresh, ⟨some (path, fresh), st.reads ++ [path]⟩)
  | none =>
    let fresh := st.reads.length
    (fresh, ⟨some (path, fresh), st.reads ++ [path]⟩)

/-! ## Character generation (`generator.py`) -/

/-- `CharacterGenerator._collapse_whitespace`: `" ".join(text.split())`. -/
def collapse_whitespace (text : String) : String :=
  pyJoin " " ((wordsChars text.data).map String.mk)

/-- `CharacterGenerator._normalize_text(text, fallback="—")`: `None` or a
whitespace-only string become the fallback. -/
def normalize_text (fallback : String) (text : Option String) : String :=
  match text with
  | none => fallback
  | some t =>
    let collapsed := collapse_whitespace t
    if collapsed = "" then fallback else collapsed

/-- `MELEE_SKILLS` (a Python `set`; only membership is ever used). -/
def MELEE_SKILLS : List String :=
  ["Айкидо", "Будзюцу", "Чанбара", "Иайдо", "Карате", "Некоде"]

/-- `SUPPORT_SKILL_CATEGORIES`. -/
def SUPPORT_SKILL_CATEGORIES : List (String × List String) :=
  [("Киберпространство", ["Кибердека", "Программа"]),
   ("Контрбезопасность", ["Охранное оборудование"]),
   ("Технологии", ["Техника"]),
   ("Медицина", ["Медицинские товары и услуги"]),
   ("Взрывчатка", ["Взрывчатка"])]

/-- `DEFAULT_SUPPORT_TYPES`. -/
def DEFAULT_SUPPORT_TYPES : List String := ["Техника", "Компьютер"]

/-- `CharacterSheet` (gender is the literal tag `"М"` or `"Ж"`). -/
structure CharacterSheet where
  name : String
  gender : String
  name_meaning : String
  concept : Feat
  background : Feat
  feud : Option Feat
  motivation : Feat
  clothing : Feat
  features : List Feat
  problems : List Feat
  augmentations : List Feat
  augmentation_roll : Nat
  skills : List Skill
  rank : Rank
  armor : Option InventoryItem
  primary_weapon : Option InventoryItem
  backup_weapon : Option InventoryItem
  support_items : List InventoryItem
  lifestyle : Option InventoryItem
  transport : Option InventoryItem
deriving DecidableEq

/-- `CharacterGenerator._choose_name`: roll a gender tag, then fall through
the three return statements of the source. -/
def choose_name (db : Database) (r : Rng) : Option ((Feat × String) × Rng) := do
  let male_names := db.feats_by_type "Мужские имена"
  let female_names := db.feats_by_type "Женские имена"
  let (gender, r1) ← Rng.choice r ["male", "female"]
  if gender = "male" ∧ male_names ≠ [] then
    let (f, r2) ← Rng.choice r1 male_names
    pure ((f, gender), r2)
  else if female_names ≠ [] then
    let (f, r2) ← Rng.choice r1 female_names
    pure ((f, "female"), r2)
  else
    let (f, r2) ← Rng.choice r1 (if male_names ≠ [] then male_names else female_names)
    pure ((f, gender), r2)

/-- `CharacterGenerator._choose_background`: pick a background other than the
feud-table sentinel; roll on the feud table when the background name demands
a feud. -/
def choose_background (db : Database) (r : Rng) : Option ((Feat × Option Feat) × Rng) := do
  let all_history := db.feats_by_type "Предыстория"
  let backgrounds := all_history.filter (fun feat => pyStrip feat.name ≠ "Таблица вражды")
  let feud_table := all_history.filter (fun feat => pyStrip feat.name = "Таблица вражды")
  let (background, r1) ← Rng.choice r backgrounds
  let name_lower := pyLower background.name
  if pyContains name_lower "нужна" ∧ ¬ pyContains name_lower "не нужна" ∧ feud_table ≠ [] then
    let (feud, r2) ← Rng.choice r1 feud_table
    pure ((background, some feud), r2)
  else
    pure ((background, none), r1)

/-- The roll-to-plan table of `_roll_augmentations` (the class letter for
roll 1 is the Cyrillic А, exactly as in the source). -/
def augPlan (roll : Nat) : List (String × Nat) :=
  if roll = 1 then [("А", 1)]
  else if roll = 2 then [("B", 1), ("D", 1)]
  else if roll = 3 then [("C", 2)]
  else if roll = 4 then [("C", 1), ("D", 2)]
  else [("D", 4)]

/-- The body of the plan loop of `_roll_augmentations`: skip an empty class
pool, otherwise extend the accumulated Feat list with unique picks. -/
def augStep (db : Database) (acc : List Feat × Rng) (entry : String × Nat) :
    Option (List Feat × Rng) :=
  let feats := db.feats_by_type ("Аугментации класса " ++ entry.1)
  if feats = [] then
    pure acc
  else do
    let (picked, r') ← pick_unique acc.2 feats (entry.2 : Int)
    pure (acc.1 ++ picked, r')

/-- `CharacterGenerator._roll_augmentations`: d6 roll, fixed plan, unique
picks per augmentation class; an empty class pool is skipped. -/
def roll_augmentations (db : Database) (r : Rng) : Option ((Nat × List Feat) × Rng) := do
  let (roll, r1) := r.randint 1 6
  let (augmentations, r2) ← (augPlan roll).foldlM (augStep db) ([], r1)
  pure ((roll, augmentations), r2)

/-- `CharacterGenerator._choose_weapons`. -/
def choose_weapons (db : Database) (skills : List Skill) (r : Rng) :
    (Option InventoryItem × Option InventoryItem) × Rng :=
  let skill_names := skills.map (fun s => s.name)
  let heavy := skill_names.contains "Тяжёлое оружие" || skill_names.contains "Тяжелое оружие"
  let melee := MELEE_SKILLS.any (fun s => skill_names.contains s)
  let step1 := if heavy then pick_one r (db.inventory_by_type "Тяжелое оружие") else (none, r)
  let step2 :=
    match step1 with
    | (some x, r') => (some x, r')
    | (none, r') => pick_one r' (db.inventory_by_type "Лёгкое оружие")
  let step3 :=
    if melee then pick_one step2.2 (db.inventory_by_type "Лёгкое оружие")
    else (none, step2.2)
  let step4 :=
    match step3 with
    | (some x, r') => (some x, r')
    | (none, r') => pick_one r' (db.inventory_by_type "Холодное оружие")
  ((step2.1, step4.1), step4.2)

/-- The `append_types` accumulation of `_choose_support_items` (append each
type once). -/
def appendTypes (categories : List String) (type_names : List String) : List String :=
  type_names.foldl (fun acc t => if acc.contains t then acc else acc ++ [t]) categories

/-- `CharacterGenerator._choose_support_items`. -/
def choose_support_items (db : Database) (skills : List Skill) (r : Rng) :
    List InventoryItem × Rng :=
  let skill_names := skills.map (fun s => s.name)
  let categories := SUPPORT_SKILL_CATEGORIES.foldl
    (fun acc entry => if skill_names.contains entry.1 then appendTypes acc entry.2 else acc) []
  let categories := if categories = [] then appendTypes [] DEFAULT_SUPPORT_TYPES else categories
  categories.foldl
    (fun acc t =>
      match pick_one acc.2 (db.inventory_by_type t) with
      | (some item, r') => (acc.1 ++ [item], r')
      | (none, r') => (acc.1, r'))
    ([], r)

/-- Stable insertion into a sorted prefix (model of Python's stable `sorted`,
which the source uses only through its head element). -/
def insertSorted (le : α → α → Bool) (x : α) : List α → List α
  | [] => [x]
  | y :: t => if le y x then y :: insertSorted le x t else x :: y :: t

/-- Modelled from the spec: Python `sorted(iterable, key=...)` — a stable
ascending sort. -/
def pySorted (le : α → α → Bool) (l : List α) : List α :=
  l.foldl (fun acc x => insertSorted le x acc) []

/-- `CharacterGenerator._starting_rank`: lowest-id rank, or the all-empty
placeholder when there are no ranks. -/
def starting_rank (db : Database) : Rank :=
  match pySorted (fun a b => a.id ≤ b.id) db.ranks with
  | [] => ⟨0, "", "", "", ""⟩
  | rank :: _ => rank

/-- `CharacterGenerator.generate`: the fixed, order-dependent assembly
sequence.  Steps that call `rng.choice` directly propagate its failure on an
empty pool. -/
def generate (db : Database) (r0 : Rng) : Option (CharacterSheet × Rng) := do
  let ((name_entry, gender), r1) ← choose_name db r0
  let (concept, r2) ← Rng.choice r1 (db.feats_by_type "Концепт")
  let ((background_entry, feud_entry), r3) ← choose_background db r2
  let (motivation, r4) ← Rng.choice r3 (db.feats_by_type "Мотивация")
  let (clothing, r5) ← Rng.choice r4 (db.feats_by_type "Одежда")
  let (features, r6) ← pick_unique r5 (db.feats_by_type "Особые черты") 2
  let (problems, r7) ← pick_unique r6 (db.feats_by_type "Личностные проблемы") 2
  let ((augmentation_roll, augmentations), r8) ← roll_augmentations db r7
  let (skills, r9) ← pick_unique r8 db.skills 6
  let rank := starting_rank db
  let (armor, r10) := pick_one r9 (db.inventory_by_type "Броня")
  let ((primary_weapon, backup_weapon), r11) := choose_weapons db skills r10
  let (support_items, r12) := choose_support_items db skills r11
  let (lifestyle, r13) := pick_one r12 (db.inventory_by_type "Образ жизни")
  let (transport, r14) := pick_one r13 (db.inventory_by_type "Транспорт")
  let gender_code := if gender = "female" then "Ж" else "М"
  pure ({ name := normalize_text "—" (some name_entry.name),
          gender := gender_code,
          name_meaning := normalize_text "—" (some name_entry.description),
          concept, background := background_entry, feud := feud_entry,
          motivation, clothing, features, problems,
          augmentations, augmentation_roll, skills, rank, armor,
          primary_weapon, backup_weapon, support_items, lifestyle, transport }, r14)

/-! ## Section text derivation (`_describe_*`, `_build_sections`) -/

/-- `CharacterGenerator._describe_feat`. -/
def describe_feat (feat : Option Feat) : String :=
  match feat with
  | none => "—"
  | some f =>
    let description := collapse_whitespace f.description
    let description :=
      if description = "" ∨ description = "-" ∨ description = "—" then "" else description
    let name := collapse_whitespace f.name
    if description = "" then normalize_text "—" (some name)
    else if name = "" ∨ pyStartsWith (pyLower name) "таблица" then
      normalize_text "—" (some description)
    else if pyStartsWith (pyLower description) (pyLower name) then
      normalize_text "—" (some description)
    else normalize_text "—" (some (name ++ " — " ++ description))

/-- `CharacterGenerator._describe_item` (price is rendered thousands-grouped
with spaces). -/
def describe_item (item : Option InventoryItem) : String :=
  match item with
  | none => "—"
  | some it =>
    let parts := [normalize_text "—" (some it.name)]
    let description := collapse_whitespace it.description
    let parts :=
      if description ≠ "" ∧ description ≠ "-" ∧ description ≠ "—" then parts ++ [description]
      else parts
    let parts :=
      match it.price with
      | some p => parts ++ ["¥" ++ pyReplace (pyCommaFormat p) "," " "]
      | none => parts
    normalize_text "—" (some (pyJoin " — " parts))

/-- `CharacterGenerator._describe_skill`. -/
def describe_skill (skill : Skill) : String :=
  let name := normalize_text "—" (some skill.name)
  let description := normalize_text "—" (some skill.description)
  if description = "—" then name
  else if pyStartsWith (pyLower description) (pyLower name) then description
  else name ++ " — " ++ description

/-- The fixed-key dictionary returned by `_build_sections`. -/
structure Sections where
  biography : List String
  motivation : List String
  appearance : List String
  personality : List String
  augmentations : List String
  skills : List String
  gear : List String
  lifestyle : List String
  transport : List String
  rank : List String
deriving DecidableEq

/-- `CharacterGenerator._build_sections`. -/
def build_sections (sheet : CharacterSheet) : Sections :=
  let background_text := describe_feat (some sheet.background)
  let background_text :=
    match sheet.feud with
    | some feud =>
      background_text ++ "; Вражда: " ++
        normalize_text "—" (some (pyOr feud.description feud.name))
    | none => background_text
  let motivation_text := describe_feat (some sheet.motivation)
  let appearance_lines :=
    describe_feat (some sheet.clothing) ::
      sheet.features.map (fun feat => describe_feat (some feat))
  let personality_lines := sheet.problems.map (fun feat => describe_feat (some feat))
  let augmentation_lines :=
    ("Бросок d6 на аугментации: " ++ natToStr sheet.augmentation_roll) ::
      sheet.augmentations.map (fun feat => describe_feat (some feat))
  let skill_lines := sheet.skills.map describe_skill
  let gear_lines :=
    [normalize_text "—" (some ("Броня: " ++ describe_item sheet.armor)),
     normalize_text "—" (some ("Основное оружие: " ++ describe_item sheet.primary_weapon)),
     normalize_text "—" (some ("Запасное оружие: " ++ describe_item sheet.backup_weapon))] ++
    (List.enumFrom 1 sheet.support_items).map
      (fun p =>
        normalize_text "—"
          (some ("Поддержка " ++ natToStr p.1 ++ ": " ++ describe_item (some p.2))))
  let lifestyle_line := describe_item sheet.lifestyle
  let transport_line := describe_item sheet.transport
  let rank_line :=
    normalize_text "—"
      (some (normalize_text "—" (some sheet.rank.name) ++ " (бонус: " ++
        normalize_text "—" (some sheet.rank.benefit) ++ ", опыт: " ++
        normalize_text "0" (some sheet.rank.xp_needed) ++ ")"))
  { biography := [background_text], motivation := [motivation_text],
    appearance := appearance_lines, personality := personality_lines,
    augmentations := augmentation_lines, skills := skill_lines,
    gear := gear_lines, lifestyle := [lifestyle_line],
    transport := [transport_line], rank := [rank_line] }

/-! ## Plain-text renderer (`CharacterGenerator.format_sheet`) -/

/-- The fixed column width (`width = 60` in `format_sheet`). -/
def sheetWidth : Nat := 60

def borderTop : String := "╔" ++ repChar '═' (sheetWidth - 2) ++ "╗"

def borderMid : String := "╠" ++ repChar '═' (sheetWidth - 2) ++ "╣"

def borderSep : String := "╟" ++ repChar '─' (sheetWidth - 2) ++ "╢"

def borderBottom : String := "╚" ++ repChar '═' (sheetWidth - 2) ++ "╝"

/-- The inner `format_line` helper of `format_sheet`. -/
def format_line (label value : String) : String :=
  let label := label ++ ":"
  let normalized := normalize_text "—" (some value)
  "║ " ++ padRight label 18 ++ " " ++ padRight normalized (sheetWidth - 23) ++ " ║"

/-- The inner `format_list` helper of `format_sheet`: title line, then each
bulleted row word-wrapped and padded. -/
def format_list (title : String) (rows : List String) : String :=
  let lines := rows.map (fun row => "• " ++ row)
  let wrapped_lines :=
    (lines.map (fun line =>
      let w := pyWrap (sheetWidth - 4) line
      if w = [] then [""] else w)).flatten
  let body :=
    pyJoin "\n" (wrapped_lines.map (fun line =>
      "║ " ++ padRight line (sheetWidth - 4) ++ " ║"))
  "║ " ++ padRight title (sheetWidth - 4) ++ " ║" ++ "\n" ++ body

/-- The lines of one `format_list` block.  When a section has no rows the
block is the title line followed by one empty line (the trailing `"\n"` the
source appends before an empty body). -/
def format_list_lines (title : String) (rows : List String) : List String :=
  let lines := rows.map (fun row => "• " ++ row)
  let wrapped_lines :=
    (lines.map (fun line =>
      let w := pyWrap (sheetWidth - 4) line
      if w = [] then [""] else w)).flatten
  let body := wrapped_lines.map (fun line => "║ " ++ padRight line (sheetWidth - 4) ++ " ║")
  ("║ " ++ padRight title (sheetWidth - 4) ++ " ║") :: (if body = [] then [""] else body)

/-- The `header` list of `format_sheet` (each element is a single line). -/
def header_lines (sheet : CharacterSheet) : List String :=
  [borderTop,
   padRight "║ SHINOBI // CYBERPUNK DOSSIER" (sheetWidth - 1) ++ "║",
   borderMid,
   format_line "Имя" sheet.name,
   format_line "Пол" (if sheet.gender = "Ж" then "Женский" else "Мужской"),
   format_line "Значение" (pyOr sheet.name_meaning "—"),
   format_line "Концепт" sheet.concept.name,
   borderSep]

/-- The `block_order` pairs of `format_sheet`, resolved against the sections
dictionary. -/
def block_order (s : Sections) : List (String × List String) :=
  [("Биография", s.biography),
   ("Мотивация", s.motivation),
   ("Внешность", s.appearance),
   ("Черты характера", s.personality),
   ("Аугментации", s.augmentations),
   ("Навыки", s.skills),
   ("Снаряжение", s.gear),
   ("Образ жизни", s.lifestyle),
   ("Транспорт", s.transport),
   ("Ранг", s.rank)]

/-- The separator interleaving of the block loop (`border_sep` between
consecutive blocks, none after the last). -/
def interleaveSep (sep : α) : List α → List α
  | [] => []
  | [b] => [b]
  | b :: rest => b :: sep :: interleaveSep sep rest

/-- `CharacterGenerator.format_sheet`. -/
def format_sheet (sheet : CharacterSheet) : String :=
  let sections := build_sections sheet
  let blocks :=
    interleaveSep borderSep ((block_order sections).map (fun p => format_list p.1 p.2)) ++
      [borderBottom]
  pyJoin "\n" (header_lines sheet ++ blocks)

/-- The groups of output lines of `format_sheet`, block structure preserved. -/
def sheet_line_groups (sheet : CharacterSheet) : List (List String) :=
  let sections := build_sections sheet
  (header_lines sheet).map (fun h => [h]) ++
    interleaveSep [borderSep]
      ((block_order sections).map (fun p => format_list_lines p.1 p.2)) ++
    [[borderBottom]]

/-- All output lines of `format_sheet`, in order. -/
def sheet_lines (sheet : CharacterSheet) : List String :=
  (sheet_line_groups sheet).flatten


/-! ## Styled document renderer (`format_sheet_html`)

The CSS/markup template is the `textwrap.dedent`-ed `HTML_TEMPLATE` constant,
split at its two `string.Template` placeholders. -/

/-- The dedented `HTML_TEMPLATE` text before the `$info_cards` placeholder. -/
def htmlTemplatePre : String :=
  "\n<!DOCTYPE html>\n<html lang=\"ru\">\n  <head>\n    <meta charset=\"utf-8\" />\n    <meta name=\"viewport\" content=\"width=device-width, initial-scale=1\" />\n    <title>Shinobi Dossier</title>\n    <style>\n      :root \x7b\n        color-scheme: dark;\n        --bg: #04020c;\n        --panel: rgba(25, 17, 48, 0.85);\n        --accent: #7df9ff;\n        --accent-2: #ff00ff;\n        --text: #e4f1ff;\n        --muted: #8ca1c1;\n        --shadow: 0 0 30px rgba(125, 249, 255, 0.25);\n      \x7d\n      * \x7b\n        box-sizing: border-box;\n      \x7d\n      body \x7b\n        margin: 0;\n        padding: 24px 12px 48px;\n        font-family: \"Orbitron\", \"Russo One\", \"Segoe UI\", sans-serif;\n        background: radial-gradient(circle at top, #120a28, #03010a 55%, #010006);\n        color: var(--text);\n      \x7d\n      .dossier \x7b\n        max-width: 720px;\n        margin: 0 auto;\n        background: var(--panel);\n        border: 2px solid var(--accent);\n        border-radius: 18px;\n        padding: 24px 20px;\n        box-shadow: var(--shadow);\n        backdrop-filter: blur(6px);\n      \x7d\n      header \x7b\n        text-align: center;\n        margin-bottom: 24px;\n      \x7d\n      header h1 \x7b\n        font-size: clamp(1.6rem, 3vw, 2.6rem);\n        letter-spacing: 0.28em;\n        margin: 0 0 6px;\n        text-transform: uppercase;\n        color: var(--accent);\n        text-shadow: 0 0 16px rgba(125, 249, 255, 0.6);\n      \x7d\n      header p \x7b\n        margin: 0;\n        font-size: 0.95rem;\n        color: var(--muted);\n        letter-spacing: 0.16em;\n        text-transform: uppercase;\n      \x7d\n      .info-grid \x7b\n        display: grid;\n        grid-template-columns: repeat(auto-fit, minmax(180px, 1fr));\n        gap: 12px;\n        margin-bottom: 24px;\n      \x7d\n      .info-row \x7b\n        background: rgba(12, 9, 26, 0.9);\n        border: 1px solid rgba(125, 249, 255, 0.35);\n        border-radius: 12px;\n        padding: 12px;\n        display: flex;\n        flex-direction: column;\n        gap: 6px;\n        box-shadow: 0 0 12px rgba(255, 0, 255, 0.18);\n      \x7d\n      .label \x7b\n        font-size: 0.7rem;\n        text-transform: uppercase;\n        letter-spacing: 0.22em;\n        color: var(--muted);\n      \x7d\n      .value \x7b\n        font-size: 1.05rem;\n        letter-spacing: 0.02em;\n      \x7d\n      .block \x7b\n        margin-bottom: 22px;\n        padding: 16px 14px;\n        border: 1px solid rgba(255, 0, 255, 0.25);\n        border-radius: 12px;\n        background: rgba(10, 6, 24, 0.9);\n        position: relative;\n        overflow: hidden;\n      \x7d\n      .block::before \x7b\n        content: \"\";\n        position: absolute;\n        inset: 0;\n        border: 1px solid rgba(125, 249, 255, 0.15);\n        border-radius: 12px;\n        pointer-events: none;\n      \x7d\n      .block h2 \x7b\n        margin: 0 0 12px;\n        font-size: 1rem;\n        letter-spacing: 0.32em;\n        text-transform: uppercase;\n        color: var(--accent-2);\n      \x7d\n      .block ul \x7b\n        list-style: none;\n        margin: 0;\n        padding: 0;\n        display: flex;\n        flex-direction: column;\n        gap: 10px;\n      \x7d\n      .block li \x7b\n        display: flex;\n        gap: 10px;\n        align-items: flex-start;\n        font-size: 0.95rem;\n        line-height: 1.45;\n      \x7d\n      .bullet \x7b\n        width: 8px;\n        height: 8px;\n        border-radius: 50%;\n        margin-top: 6px;\n        background: linear-gradient(135deg, var(--accent), var(--accent-2));\n        box-shadow: 0 0 10px rgba(125, 249, 255, 0.9);\n        flex-shrink: 0;\n      \x7d\n      @media (prefers-reduced-motion: reduce) \x7b\n        * \x7b\n          transition: none !important;\n        \x7d\n      \x7d\n    </style>\n  </head>\n  <body>\n    <main class=\"dossier\">\n      <header>\n        <h1>SHINOBI DOSSIER</h1>\n        <p>Cyberpunk операционный файл</p>\n      </header>\n      <section class=\"info-grid\">"

/-- The template text between the `$info_cards` and `$sections` placeholders. -/
def htmlTemplateMid : String :=
  "</section>\n      "

/-- The template text after the `$sections` placeholder. -/
def htmlTemplatePost : String :=
  "\n    </main>\n  </body>\n</html>\n"

/-- `html.escape(s)` with `quote=True` (the CPython replacement chain). -/
def pyHtmlEscape (s : String) : String :=
  let s := pyReplace s "&" "&amp;"
  let s := pyReplace s "<" "&lt;"
  let s := pyReplace s ">" "&gt;"
  let s := pyReplace s "\"" "&quot;"
  pyReplace s (String.mk [Char.ofNat 39]) "&#x27;"

/-- `CharacterGenerator._render_html_info_row`. -/
def render_html_info_row (label value : String) : String :=
  let safe_label := pyHtmlEscape label
  let safe_value := pyHtmlEscape (pyOr value "—")
  "<div class=\"info-row\">" ++
    "<span class=\"label\">" ++ safe_label ++ "</span>" ++
    "<span class=\"value\">" ++ safe_value ++ "</span>" ++
    "</div>"

/-- `CharacterGenerator._render_html_section`. -/
def render_html_section (title : String) (items : List String) : String :=
  let normalized_items :=
    let l := items.map (fun item => normalize_text "—" (some item))
    if l = [] then ["—"] else l
  let list_items :=
    pyJoin "" (normalized_items.map (fun item =>
      "<li><span class=\"bullet\"></span><span>" ++ pyHtmlEscape item ++ "</span></li>"))
  "<section class=\"block\">" ++
    "<h2>" ++ pyHtmlEscape title ++ "</h2>" ++
    "<ul>" ++ list_items ++ "</ul>" ++
    "</section>"

/-- `CharacterGenerator._html_info_rows`. -/
def html_info_rows (sheet : CharacterSheet) : List (String × String) :=
  let gender_label := if sheet.gender = "Ж" then "Женский" else "Мужской"
  [("Имя", normalize_text "—" (some sheet.name)),
   ("Пол", gender_label),
   ("Значение имени", normalize_text "—" (some sheet.name_meaning)),
   ("Концепт", normalize_text "—" (some sheet.concept.name))]

/-- The `HTML_SECTIONS` key/title pairs, resolved against the sections
dictionary. -/
def htmlSectionPairs (s : Sections) : List (String × List String) :=
  [("Биография", s.biography),
   ("Мотивация", s.motivation),
   ("Внешность", s.appearance),
   ("Черты характера", s.personality),
   ("Аугментации", s.augmentations),
   ("Навыки", s.skills),
   ("Снаряжение", s.gear),
   ("Образ жизни", s.lifestyle),
   ("Транспорт", s.transport),
   ("Ранг", s.rank)]

/-- `CharacterGenerator.format_sheet_html`: info cards and section markup
substituted into the template. -/
def format_sheet_html (sheet : CharacterSheet) : String :=
  let sections := build_sections sheet
  let info_cards :=
    pyJoin "" ((html_info_rows sheet).map (fun p => render_html_info_row p.1 p.2))
  let section_markup :=
    pyJoin "" ((htmlSectionPairs sections).map (fun p => render_html_section p.1 p.2))
  htmlTemplatePre ++ info_cards ++ htmlTemplateMid ++ section_markup ++ htmlTemplatePost

/-- `generator.generate_character_sheet(seed)`: build a fresh seeded source,
generate, format (generation failure propagates as `none`). -/
def generate_character_sheet (db : Database) (r : Rng) : Option String :=
  (generate db r).map (fun p => format_sheet p.1)


/-! ## Concrete fixtures used by witnesses and counterexamples -/

/-- A random source whose raw draws are all zero. -/
def rngZero : Rng := ⟨fun _ => 0, 0⟩

/-- A random source whose raw draws are all one. -/
def rngOne : Rng := ⟨fun _ => 1, 0⟩

/-- The catalog with no records at all. -/
def emptyDb : Database := ⟨[], [], [], []⟩

/-! ## Step lemmas for the assembly pipeline -/

theorem choice_ne_nil (r : Rng) (pool : List α) (h : pool ≠ []) :
    ∃ x r', Rng.choice r pool = some (x, r') ∧ x ∈ pool := by
  cases pool with
  | nil => exact absurd rfl h
  | cons a t =>
    exact ⟨_, _, rfl, List.get_mem _ _ _⟩

theorem pick_unique_some (r : Rng) (pool : List α) (count : Int) :
    ∃ l r', pick_unique r pool count = some (l, r') ∧
      ((pool = [] ∨ count ≤ 0) → l = []) ∧ (∀ x ∈ l, x ∈ pool) := by
  obtain ⟨l, r', h1, _, hsub, _, _, hnil⟩ := pick_unique_spec r pool count
  exact ⟨l, r', h1, hnil, hsub⟩

theorem choose_name_some (db : Database) (r : Rng)
    (h : db.feats_by_type "Мужские имена" ≠ [] ∨ db.feats_by_type "Женские имена" ≠ []) :
    ∃ f g r', choose_name db r = some ((f, g), r') := by
  obtain ⟨g, rg, hcg, _⟩ := choice_ne_nil r (["male", "female"] : List String) (by simp)
  simp only [choose_name, Option.bind_eq_bind, hcg, Option.some_bind]
  by_cases h1 : g = "male" ∧ db.feats_by_type "Мужские имена" ≠ []
  · rw [if_pos h1]
    obtain ⟨x, r', hc, _⟩ := choice_ne_nil rg _ h1.2
    rw [hc]
    exact ⟨x, g, r', rfl⟩
  · rw [if_neg h1]
    by_cases h2 : db.feats_by_type "Женские имена" ≠ []
    · rw [if_pos h2]
      obtain ⟨x, r', hc, _⟩ := choice_ne_nil rg _ h2
      rw [hc]
      exact ⟨x, "female", r', rfl⟩
    · rw [if_neg h2]
      push_neg at h2
      have hm : db.feats_by_type "Мужские имена" ≠ [] := by
        rcases h with h | h
        · exact h
        · exact absurd h2 h
      rw [if_pos hm]
      obtain ⟨x, r', hc, _⟩ := choice_ne_nil rg _ hm
      rw [hc]
      exact ⟨x, g, r', rfl⟩

theorem choose_background_some (db : Database) (r : Rng)
    (h : (db.feats_by_type "Предыстория").filter
      (fun feat => pyStrip feat.name ≠ "Таблица вражды") ≠ []) :
    ∃ b fd r', choose_background db r = some ((b, fd), r') := by
  simp only [choose_background, Option.bind_eq_bind]
  obtain ⟨b, r1, hc, _⟩ := choice_ne_nil r _ h
  rw [hc]
  simp only [Option.some_bind]
  by_cases hif : pyContains (pyLower b.name) "нужна" ∧
      ¬ pyContains (pyLower b.name) "не нужна" ∧
      (db.feats_by_type "Предыстория").filter
        (fun feat => pyStrip feat.name = "Таблица вражды") ≠ []
  · rw [if_pos hif]
    obtain ⟨fd, r2, hc2, _⟩ := choice_ne_nil r1 _ hif.2.2
    rw [hc2]
    exact ⟨b, some fd, r2, rfl⟩
  · rw [if_neg hif]
    exact ⟨b, none, r1, rfl⟩

theorem roll_aug_step_some (db : Database) :
    ∀ (plan : List (String × Nat)) (acc : List Feat) (rr : Rng),
      ∃ l r', (plan.foldlM (augStep db) (acc, rr)) = some (l, r') ∧
        (db.feats = [] → l = acc) ∧ (∀ f ∈ l, f ∈ acc ∨ f ∈ db.feats) := by
  intro plan
  induction plan with
  | nil =>
    intro acc rr
    exact ⟨acc, rr, rfl, fun _ => rfl, fun f hf => Or.inl hf⟩
  | cons e rest ih =>
    intro acc rr
    simp only [List.foldlM_cons, augStep, Option.bind_eq_bind]
    by_cases hfe : db.feats_by_type ("Аугментации класса " ++ e.1) = []
    · rw [if_pos hfe]
      simp only [Option.some_bind, pure]
      obtain ⟨l, r', h1, h2, h3⟩ := ih acc rr
      exact ⟨l, r', h1, h2, h3⟩
    · rw [if_neg hfe]
      obtain ⟨picked, rp, hp, _, hsub⟩ :=
        pick_unique_some rr (db.feats_by_type ("Аугментации класса " ++ e.1)) (e.2 : Int)
      rw [hp]
      simp only [Option.some_bind]
      obtain ⟨l, r', h1, h2, h3⟩ := ih (acc ++ picked) rp
      refine ⟨l, r', h1, ?_, ?_⟩
      · intro hnil
        exact absurd (by simp [Database.feats_by_type, hnil]) hfe
      · intro f hf
        rcases h3 f hf with hf' | hf'
        · rcases List.mem_append.mp hf' with hf'' | hf''
          · exact Or.inl hf''
          · exact Or.inr (List.mem_filter.mp (hsub f hf'')).1
        · exact Or.inr hf'

theorem roll_aug_some (db : Database) (r : Rng) :
    ∃ roll feats r', roll_augmentations db r = some ((roll, feats), r') ∧
      roll = 1 + r.next % 6 ∧ (db.feats = [] → feats = []) ∧
      (∀ f ∈ feats, f ∈ db.feats) := by
  simp only [roll_augmentations, Rng.randint, Option.bind_eq_bind,
    show (6 - 1 + 1 : Nat) = 6 from rfl]
  obtain ⟨l, r', h1, h2, h3⟩ := roll_aug_step_some db (augPlan (1 + r.next % 6)) [] r.advance
  rw [h1]
  simp only [Option.some_bind]
  refine ⟨1 + r.next % 6, l, r', rfl, rfl, ?_, ?_⟩
  · intro hnil; exact h2 hnil
  · intro f hf
    rcases h3 f hf with hf' | hf'
    · simp at hf'
    · exact hf'

theorem pick_one_nil (r : Rng) : pick_one r ([] : List α) = (none, r) := rfl

/-! ## Claim C1 -/

/-- C1, counterexample: on a catalog with no records at all — in particular
the name, Концепт, Предыстория, Мотивация and Одежда categories are entirely
missing — `generate` does not return a CharacterSheet: the bare `rng.choice`
on the empty name pool raises (modelled as `none`), so "generate never
fails" is false as stated. -/
theorem generate_empty_catalog_fails :
    emptyDb.feats_by_type "Концепт" = [] ∧ generate emptyDb rngZero = none := by
  constructor
  · rfl
  · rfl

/-- C1 (amended): `generate` never fails provided the five mandatory
single-pick pools are nonempty — some gendered name pool, Концепт, the
Предыстория pool without the feud-table sentinel, Мотивация and Одежда.
Every other category may be entirely missing, and the corresponding sheet
field degrades to `None`/the empty list as the claim describes. -/
theorem generate_succeeds_with_mandatory_pools (db : Database) (r0 : Rng)
    (hnames : db.feats_by_type "Мужские имена" ≠ [] ∨ db.feats_by_type "Женские имена" ≠ [])
    (hconcept : db.feats_by_type "Концепт" ≠ [])
    (hbackground : (db.feats_by_type "Предыстория").filter
      (fun feat => pyStrip feat.name ≠ "Таблица вражды") ≠ [])
    (hmotivation : db.feats_by_type "Мотивация" ≠ [])
    (hclothing : db.feats_by_type "Одежда" ≠ []) :
    ∃ sheet r', generate db r0 = some (sheet, r') ∧
      (db.feats_by_type "Особые черты" = [] → sheet.features = []) ∧
      (db.feats_by_type "Личностные проблемы" = [] → sheet.problems = []) ∧
      (db.skills = [] → sheet.skills = []) ∧
      (db.inventory_by_type "Броня" = [] → sheet.armor = none) ∧
      (db.inventory_by_type "Образ жизни" = [] → sheet.lifestyle = none) ∧
      (db.inventory_by_type "Транспорт" = [] → sheet.transport = none) := by
  obtain ⟨nf, g, r1, h1⟩ := choose_name_some db r0 hnames
  obtain ⟨c, r2, h2, _⟩ := choice_ne_nil r1 _ hconcept
  obtain ⟨b, fd, r3, h3⟩ := choose_background_some db r2 hbackground
  obtain ⟨m, r4, h4, _⟩ := choice_ne_nil r3 _ hmotivation
  obtain ⟨cl, r5, h5, _⟩ := choice_ne_nil r4 _ hclothing
  obtain ⟨fe, r6, h6, he6, _⟩ := pick_unique_some r5 (db.feats_by_type "Особые черты") 2
  obtain ⟨pr, r7, h7, he7, _⟩ := pick_unique_some r6 (db.feats_by_type "Личностные проблемы") 2
  obtain ⟨roll, augs, r8, h8, _, _, _⟩ := roll_aug_some db r7
  obtain ⟨sk, r9, h9, he9, _⟩ := pick_unique_some r8 db.skills 6
  rcases h10 : pick_one r9 (db.inventory_by_type "Броня") with ⟨armor, r10⟩
  rcases h11 : choose_weapons db sk r10 with ⟨⟨pw, bw⟩, r11⟩
  rcases h12 : choose_support_items db sk r11 with ⟨si, r12⟩
  rcases h13 : pick_one r12 (db.inventory_by_type "Образ жизни") with ⟨life, r13⟩
  rcases h14 : pick_one r13 (db.inventory_by_type "Транспорт") with ⟨trans, r14⟩
  refine ⟨{ name := normalize_text "—" (some nf.name),
            gender := if g = "female" then "Ж" else "М",
            name_meaning := normalize_text "—" (some nf.description),
            concept := c, background := b, feud := fd, motivation := m, clothing := cl,
            features := fe, problems := pr, augmentations := augs,
            augmentation_roll := roll, skills := sk, rank := starting_rank db,
            armor := armor, primary_weapon := pw, backup_weapon := bw,
            support_items := si, lifestyle := life, transport := trans },
          r14, ?_, ?_, ?_, ?_, ?_, ?_, ?_⟩
  · simp only [generate, h1, h2, h3, h4, h5, h6, h7, h8, h9, h10, h11, h12, h13, h14,
      Option.bind_eq_bind, Option.some_bind]
    rfl
  · intro hA
    exact he6 (Or.inl hA)
  · intro hA
    exact he7 (Or.inl hA)
  · intro hA
    exact he9 (Or.inl hA)
  · intro hA
    rw [hA, pick_one_nil] at h10
    injection h10 with ha _
    exact ha.symm
  · intro hA
    rw [hA, pick_one_nil] at h13
    injection h13 with ha _
    exact ha.symm
  · intro hA
    rw [hA, pick_one_nil] at h14
    injection h14 with ha _
    exact ha.symm

/-- A minimal catalog carrying exactly the five mandatory single-pick
categories. -/
def mandatoryDb : Database :=
  ⟨[⟨1, "Хидео", "", "Мужские имена", ""⟩,
    ⟨2, "Тень", "", "Концепт", ""⟩,
    ⟨3, "Ронин", "", "Предыстория", ""⟩,
    ⟨4, "Деньги", "", "Мотивация", ""⟩,
    ⟨5, "Плащ", "", "Одежда", ""⟩], [], [], []⟩

/-- C1, witness: on a catalog carrying only the five mandatory categories,
generation succeeds and all optional fields degrade to `None`/empty. -/
theorem generate_succeeds_witness :
    ∃ sheet r', generate mandatoryDb rngZero = some (sheet, r') ∧
      (mandatoryDb.feats_by_type "Особые черты" = [] → sheet.features = []) ∧
      (mandatoryDb.feats_by_type "Личностные проблемы" = [] → sheet.problems = []) ∧
      (mandatoryDb.skills = [] → sheet.skills = []) ∧
      (mandatoryDb.inventory_by_type "Броня" = [] → sheet.armor = none) ∧
      (mandatoryDb.inventory_by_type "Образ жизни" = [] → sheet.lifestyle = none) ∧
      (mandatoryDb.inventory_by_type "Транспорт" = [] → sheet.transport = none) :=
  generate_succeeds_with_mandatory_pools mandatoryDb rngZero
    (Or.inl (by decide)) (by decide) (by decide) (by decide) (by decide)

/-! ## Claim C2 -/

/-- C2, counterexample: the pool `["a", "a"]` holds the element `"a"` twice;
`pick_unique` with `n = 2` returns `["a", "a"]`, so "returns a list with no
element appearing twice" fails for pools that themselves contain
duplicates (sampling is without replacement by position, not by value). -/
theorem pick_unique_duplicate_pool :
    (pick_unique rngZero (["a", "a"] : List String) 2).map (fun p => p.1) =
      some ["a", "a"] ∧
    ¬ (["a", "a"] : List String).Nodup := by
  constructor
  · decide
  · decide

/-- C2 (amended): for every pool and integer `n`, `pick_unique` always
succeeds (never throws), returns at most `min(n, pool size)` elements, draws
only from the pool at pairwise distinct positions — so when the pool itself
has no duplicate elements no element appears twice — returns a permutation
of the whole pool when `n ≥ pool size`, and returns `[]` when the pool is
empty or `n ≤ 0`. -/
theorem pick_unique_correct (r : Rng) (pool : List α) (count : Int) :
    ∃ l r', pick_unique r pool count = some (l, r') ∧
      l.length ≤ min count.toNat pool.length ∧
      (∀ x ∈ l, x ∈ pool) ∧
      (pool.Nodup → l.Nodup) ∧
      ((pool.length : Int) ≤ count → l.Perm pool) ∧
      ((pool = [] ∨ count ≤ 0) → l = []) := by
  obtain ⟨l, r', h1, h2, h3, h4, h5, h6⟩ := pick_unique_spec r pool count
  exact ⟨l, r', h1, le_of_eq h2, h3, h4, h5, h6⟩

/-! ## Claim C3 -/

/-- The per-entry contract of the augmentation plan loop: a missing class
category contributes no Feats, and otherwise the entry contributes exactly
`min(count, category size)` Feats drawn from that category, without repeats
whenever the category itself holds no duplicate records. -/
def augEntryPick (db : Database) (entry : String × Nat) (part : List Feat) : Prop :=
  (db.feats_by_type ("Аугментации класса " ++ entry.1) = [] → part = []) ∧
  part.length = min entry.2 (db.feats_by_type ("Аугментации класса " ++ entry.1)).length ∧
  (∀ x ∈ part, x ∈ db.feats_by_type ("Аугментации класса " ++ entry.1)) ∧
  ((db.feats_by_type ("Аугментации класса " ++ entry.1)).Nodup → part.Nodup)

theorem roll_aug_step_parts (db : Database) :
    ∀ (plan : List (String × Nat)) (acc : List Feat) (rr : Rng),
      ∃ parts r', (plan.foldlM (augStep db) (acc, rr)) = some (acc ++ parts.flatten, r') ∧
        List.Forall₂ (augEntryPick db) plan parts := by
  intro plan
  induction plan with
  | nil =>
    intro acc rr
    exact ⟨[], rr, by simp, List.Forall₂.nil⟩
  | cons e rest ih =>
    intro acc rr
    simp only [List.foldlM_cons, augStep, Option.bind_eq_bind]
    by_cases hfe : db.feats_by_type ("Аугментации класса " ++ e.1) = []
    · rw [if_pos hfe]
      simp only [Option.some_bind, pure]
      obtain ⟨parts, r', h1, h2⟩ := ih acc rr
      refine ⟨[] :: parts, r', h1, ?_⟩
      refine List.Forall₂.cons ⟨fun _ => rfl, ?_, by simp, fun _ => List.nodup_nil⟩ h2
      rw [hfe]
      simp
    · rw [if_neg hfe]
      obtain ⟨picked, rp, hp, hlen, hsub, hnd, _, _⟩ :=
        pick_unique_spec rr (db.feats_by_type ("Аугментации класса " ++ e.1)) (e.2 : Int)
      rw [hp]
      simp only [Option.some_bind, Option.pure_def]
      obtain ⟨parts, r', h1, h2⟩ := ih (acc ++ picked) rp
      refine ⟨picked :: parts, r', ?_, ?_⟩
      · rw [h1]
        simp [List.append_assoc]
      · refine List.Forall₂.cons ⟨fun hc => absurd hc hfe, ?_, hsub, hnd⟩ h2
        simpa using hlen

/-- C3: the augmentation die roll is always in `[1, 6]`; the roll-to-plan
table is exactly 1→{А:1}, 2→{B:1, D:1}, 3→{C:2}, 4→{C:1, D:2}, 5/6→{D:4}
(the class letter for roll 1 is the Cyrillic А, exactly as in the source);
and the returned Feat list is exactly the concatenation, in plan order, of
per-entry picks: each plan entry contributes `min(count, category size)`
Feats — `count` many when the category is large enough — drawn from the
category "Аугментации класса <letter>", without repeats whenever that
category holds no duplicate records, and a missing category contributes no
Feats.  In particular a catalog with no Feats at all yields an empty
augmentation list, and every picked Feat comes from the catalog. -/
theorem roll_augmentations_plan (db : Database) (r : Rng) :
    ∃ roll feats r', roll_augmentations db r = some ((roll, feats), r') ∧
      1 ≤ roll ∧ roll ≤ 6 ∧
      augPlan 1 = [("А", 1)] ∧ augPlan 2 = [("B", 1), ("D", 1)] ∧
      augPlan 3 = [("C", 2)] ∧ augPlan 4 = [("C", 1), ("D", 2)] ∧
      augPlan 5 = [("D", 4)] ∧ augPlan 6 = [("D", 4)] ∧
      (∃ parts : List (List Feat), feats = parts.flatten ∧
        List.Forall₂ (augEntryPick db) (augPlan roll) parts) ∧
      (db.feats = [] → feats = []) ∧ (∀ f ∈ feats, f ∈ db.feats) := by
  obtain ⟨parts, rp', hfold, hforall⟩ :=
    roll_aug_step_parts db (augPlan (1 + r.next % 6)) [] r.advance
  have hgen : roll_augmentations db r =
      some ((1 + r.next % 6, parts.flatten), rp') := by
    simp only [roll_augmentations, Rng.randint, Option.bind_eq_bind,
      show (6 - 1 + 1 : Nat) = 6 from rfl]
    rw [hfold]
    rfl
  obtain ⟨roll0, feats0, r0', h1b, hroll0, hnil0, hsub0⟩ := roll_aug_some db r
  rw [hgen] at h1b
  have hpair := Option.some.inj h1b
  have hfst := congrArg Prod.fst hpair
  have hroll : roll0 = 1 + r.next % 6 := (congrArg Prod.fst hfst).symm
  have hfeats : feats0 = parts.flatten := (congrArg Prod.snd hfst).symm
  refine ⟨1 + r.next % 6, parts.flatten, rp', hgen, by omega, by omega,
    by decide, by decide, by decide, by decide, by decide, by decide,
    ⟨parts, rfl, hforall⟩, ?_, ?_⟩
  · intro hdb
    rw [← hfeats]
    exact hnil0 hdb
  · intro f hf
    rw [← hfeats] at hf
    exact hsub0 f hf

/-! ## Claim C4 -/

theorem dictInsert_fresh (d : Row) (k v : String) (h : ∀ p ∈ d, p.1 ≠ k) :
    dictInsert d k v = d ++ [(k, v)] := by
  unfold dictInsert
  rw [if_neg]
  simp only [List.any_eq_true, beq_iff_eq, not_exists]
  intro p
  intro hcon
  exact h p hcon.1 hcon.2

theorem foldl_dictInsert_fresh :
    ∀ (pairs : List (String × String)) (acc : Row),
      (pairs.map Prod.fst).Nodup → (∀ p ∈ pairs, ∀ q ∈ acc, q.1 ≠ p.1) →
      pairs.foldl (fun a p => dictInsert a p.1 p.2) acc = acc ++ pairs := by
  intro pairs
  induction pairs with
  | nil => intro acc _ _; simp
  | cons hd tl ih =>
    intro acc hnodup hdisj
    simp only [List.foldl_cons]
    rw [dictInsert_fresh acc hd.1 hd.2
      (fun q hq => hdisj hd (List.mem_cons_self _ _) q hq)]
    rw [ih (acc ++ [hd])]
    · simp
    · exact (List.nodup_cons.mp (by simpa using hnodup)).2
    · intro p hp q hq
      rcases List.mem_append.mp hq with hq | hq
      · exact hdisj p (List.mem_cons_of_mem _ hp) q hq
      · have hq1 : q = hd := List.mem_singleton.mp hq
        rw [hq1]
        have hne : hd.1 ∉ tl.map Prod.fst :=
          (List.nodup_cons.mp (by simpa using hnodup)).1
        intro hcon
        exact hne (by rw [hcon]; exact List.mem_map_of_mem Prod.fst hp)

theorem rowFromCells_of_nodup (headers cells : List String)
    (hlen : cells.length = headers.length) (hnodup : headers.Nodup) :
    rowFromCells headers cells = headers.zip cells := by
  unfold rowFromCells
  have hkeys : (headers.zip cells).map Prod.fst = headers :=
    List.map_fst_zip _ _ (le_of_eq hlen.symm)
  have hnd : ((headers.zip cells).map Prod.fst).Nodup := by
    rw [hkeys]; exact hnodup
  rw [foldl_dictInsert_fresh _ [] hnd (by simp)]
  simp

/-- C4, counterexample: a table whose header repeats a cell (`|a|a|`) gets a
matching two-cell data row collapsed into a one-entry mapping by the Python
dict comprehension, so "exactly H entries whose keys equal the header cells
in order" fails for duplicated header cells. -/
theorem parser_duplicate_header_collapses :
    parseRows ["a", "a"] ["|1|2|"] = ([[("a", "2")]], []) ∧
    (["a", "a"] : List String).length = 2 ∧ ([("a", "2")] : Row).length ≠ 2 :=
  ⟨by decide, by decide, by decide⟩

/-- C4 (amended): in the data-row loop, a row with exactly `H` cells yields a
row mapping placed in front of the remaining parse — with exactly `H`
entries whose keys equal the header cells in order provided the header cells
are pairwise distinct (duplicate header cells collapse, keeping the last
cell) — and a row whose cell count differs from `H` is skipped without
affecting the parsing of the remaining rows. -/
theorem parser_row_handling (headers : List String) (line : String) (rest : List String)
    (hpipe : pyStartsWith line "|") :
    ((splitCells line).length = headers.length → headers.Nodup →
      parseRows headers (line :: rest) =
        (rowFromCells headers (splitCells line) :: (parseRows headers rest).1,
         (parseRows headers rest).2) ∧
      rowFromCells headers (splitCells line) = headers.zip (splitCells line) ∧
      (rowFromCells headers (splitCells line)).length = headers.length ∧
      (rowFromCells headers (splitCells line)).map Prod.fst = headers) ∧
    ((splitCells line).length ≠ headers.length →
      parseRows headers (line :: rest) = parseRows headers rest) := by
  constructor
  · intro hlen hnodup
    refine ⟨?_, rowFromCells_of_nodup _ _ hlen hnodup, ?_, ?_⟩
    · simp only [parseRows]
      rw [if_pos hpipe, if_pos hlen]
    · rw [rowFromCells_of_nodup _ _ hlen hnodup, List.length_zip]
      omega
    · rw [rowFromCells_of_nodup _ _ hlen hnodup]
      exact List.map_fst_zip _ _ (le_of_eq hlen.symm)
  · intro hlen
    simp only [parseRows]
    rw [if_pos hpipe, if_neg hlen]

/-- C4, witness: a `|1|2|` row against headers `x, y` becomes the two-entry
mapping in header order, and a one-cell row is skipped without disturbing
the row that follows it. -/
theorem parser_row_handling_witness :
    (parseRows ["x", "y"] ["|1|2|", "|3|"] =
      (rowFromCells ["x", "y"] (splitCells "|1|2|") :: (parseRows ["x", "y"] ["|3|"]).1,
       (parseRows ["x", "y"] ["|3|"]).2) ∧
     rowFromCells ["x", "y"] (splitCells "|1|2|") = (["x", "y"].zip (splitCells "|1|2|")) ∧
     (rowFromCells ["x", "y"] (splitCells "|1|2|")).length =
       (["x", "y"] : List String).length ∧
     (rowFromCells ["x", "y"] (splitCells "|1|2|")).map Prod.fst = ["x", "y"]) ∧
    parseRows ["x", "y"] ["|3|", "|5|6|"] = parseRows ["x", "y"] ["|5|6|"] :=
  ⟨(parser_row_handling ["x", "y"] "|1|2|" ["|3|"] (by decide)).1 (by decide) (by decide),
   (parser_row_handling ["x", "y"] "|3|" ["|5|6|"] (by decide)).2 (by decide)⟩

/-! ## Claim C5 -/

/-- A catalog with one male name and no female names. -/
def maleOnlyDb : Database :=
  ⟨[⟨1, "Хидео", "", "Мужские имена", ""⟩], [], [], []⟩

/-- C5, counterexample: with a male-only name catalog and a roll of the
female gender tag, the chosen gender's (female) pool is empty and the other
(male) pool is nonempty — the name is indeed taken from the male pool, but
the recorded gender stays `"female"`, not the other gender, so the claim's
"that other gender is the one recorded" fails in this direction. -/
theorem choose_name_fallback_keeps_rolled_gender :
    maleOnlyDb.feats_by_type "Женские имена" = [] ∧
    maleOnlyDb.feats_by_type "Мужские имена" ≠ [] ∧
    (choose_name maleOnlyDb rngOne).map (fun p => p.1) =
      some (⟨1, "Хидео", "", "Мужские имена", ""⟩, "female") ∧
    ("female" : String) ≠ "male" :=
  ⟨by decide, by decide, by decide, by decide⟩

/-- C5 (amended): gender is rolled between the two tags; when the male pool
is empty and the female pool is not, the name is picked from the female pool
and `"female"` is recorded (so the male→female fallback does record the
other gender); but when the female pool is empty and the male pool is not,
the name is picked from the male pool while the rolled gender tag is kept —
a rolled `"female"` stays recorded even though the name is male. -/
theorem choose_name_fallback (db : Database) (r : Rng) :
    (db.feats_by_type "Мужские имена" = [] → db.feats_by_type "Женские имена" ≠ [] →
      ∃ f r', choose_name db r = some ((f, "female"), r') ∧
        f ∈ db.feats_by_type "Женские имена") ∧
    (db.feats_by_type "Мужские имена" ≠ [] → db.feats_by_type "Женские имена" = [] →
      ∃ f r', choose_name db r =
          some ((f, ["male", "female"].get ⟨r.next % 2, Nat.mod_lt _ (by decide)⟩), r') ∧
        f ∈ db.feats_by_type "Мужские имена") := by
  have hcg : Rng.choice r (["male", "female"] : List String) =
      some (["male", "female"].get ⟨r.next % 2, Nat.mod_lt _ (by decide)⟩, r.advance) := rfl
  constructor
  · intro hmale hfemale
    simp only [choose_name, hcg, Option.bind_eq_bind, Option.some_bind]
    rw [if_neg (fun hcon => hcon.2 hmale)]
    rw [if_pos hfemale]
    obtain ⟨f, r', hc, hmem⟩ := choice_ne_nil r.advance _ hfemale
    rw [hc]
    exact ⟨f, r', rfl, hmem⟩
  · intro hmale hfemale
    simp only [choose_name, hcg, Option.bind_eq_bind, Option.some_bind]
    by_cases hg : (["male", "female"].get ⟨r.next % 2, Nat.mod_lt _ (by decide)⟩ :
        String) = "male"
    · rw [if_pos ⟨hg, hmale⟩]
      obtain ⟨f, r', hc, hmem⟩ := choice_ne_nil r.advance _ hmale
      rw [hc]
      refine ⟨f, r', ?_, hmem⟩
      rw [hg]
      rfl
    · rw [if_neg (fun hcon => hg hcon.1)]
      rw [if_neg (fun hcon => hcon hfemale)]
      rw [if_pos hmale]
      obtain ⟨f, r', hc, hmem⟩ := choice_ne_nil r.advance _ hmale
      rw [hc]
      exact ⟨f, r', rfl, hmem⟩

/-- C5, witness: a female-only catalog with a rolled male tag falls back to
the female pool and records female — the direction of the claim that does
hold. -/
theorem choose_name_fallback_witness :
    ∃ f r', choose_name ⟨[⟨1, "Юки", "", "Женские имена", ""⟩], [], [], []⟩ rngZero =
        some ((f, "female"), r') ∧
      f ∈ (⟨[⟨1, "Юки", "", "Женские имена", ""⟩], [], [], []⟩ :
        Database).feats_by_type "Женские имена" :=
  (choose_name_fallback ⟨[⟨1, "Юки", "", "Женские имена", ""⟩], [], [], []⟩ rngZero).1
    (by decide) (by decide)

/-! ## Claim C6 -/

/-- C6, counterexample: with the one-entry LRU cache, the call sequence
a, b, a reads the file for `"a"` twice and the third call returns a fresh
instance different from the first — so neither "any two calls with the same
path return the same instance" nor "I/O at most once per distinct source
location" holds. -/
theorem loadCall_eviction :
    (loadCall "a" LoadState.init).1 ≠
      (loadCall "a" (loadCall "b" (loadCall "a" LoadState.init).2).2).1 ∧
    (loadCall "a" (loadCall "b" (loadCall "a" LoadState.init).2).2).2.reads =
      ["a", "b", "a"] ∧
    (["a", "b", "a"].count "a") = 2 :=
  ⟨by decide, by decide, by decide⟩

/-- C6 (amended): the load is memoized by a single-entry cache keyed by the
path: a call returns the cached instance, with no new I/O, exactly when the
immediately preceding call used the same path — so consecutive same-path
calls share one instance and one read, while an intervening different-path
call evicts the entry and forces a fresh read. -/
theorem loadCall_consecutive_same (st : LoadState) (path : String) :
    (loadCall path (loadCall path st).2).1 = (loadCall path st).1 ∧
    (loadCall path (loadCall path st).2).2 = (loadCall path st).2 := by
  rcases st with ⟨cache, reads⟩
  cases cache with
  | none => simp [loadCall]
  | some pv =>
    rcases pv with ⟨p, v⟩
    by_cases h : p = path
    · simp [loadCall, h]
    · simp [loadCall, h]

/-! ## Claim C7 -/

theorem mapM_none_of_mem (f : α → Option β) :
    ∀ (l : List α) (x : α), x ∈ l → f x = none → l.mapM f = none := by
  intro l
  induction l with
  | nil => intro x hx _; simp at hx
  | cons a t ih =>
    intro x hx hfx
    simp only [List.mapM_cons, Option.bind_eq_bind]
    rcases List.mem_cons.mp hx with hx | hx
    · rw [hx] at hfx
      rw [hfx]
      rfl
    · cases hfa : f a with
      | none => rfl
      | some b =>
        simp only [Option.some_bind]
        rw [ih x hx hfx]
        rfl

/-- C7: a record row whose mandatory `ID` cell is present but does not parse
as an integer makes the whole catalog construction fail (`int(row["ID"])`
raises, all-or-nothing), in whichever of the four record tables the row
sits; while an inventory row whose optional `price` cell fails to parse
still builds, with `price = None`. -/
theorem id_fatal_price_recovered :
    (∀ (tables : Tables) (row : Row) (s : String),
      (row ∈ tablesGet tables featSection ∨ row ∈ tablesGet tables inventorySection ∨
       row ∈ tablesGet tables skillSection ∨ row ∈ tablesGet tables rankSection) →
      rowGet? row "ID" = some s → pyInt s = none →
      Database.build tables = none) ∧
    (∀ (row : Row) (item : InventoryItem), buildItem row = some item →
      parse_int (rowGet? row "price") = none → item.price = none) := by
  constructor
  · intro tables row s hmem hid hbad
    simp only [Database.build, Option.bind_eq_bind]
    rcases hmem with hm | hm | hm | hm
    · rw [mapM_none_of_mem buildFeat _ row hm (by simp [buildFeat, hid, hbad])]
      rfl
    · cases hf : (tablesGet tables featSection).mapM buildFeat with
      | none => rfl
      | some feats =>
        simp only [Option.some_bind]
        rw [mapM_none_of_mem buildItem _ row hm (by simp [buildItem, hid, hbad])]
        rfl
    · cases hf : (tablesGet tables featSection).mapM buildFeat with
      | none => rfl
      | some feats =>
        simp only [Option.some_bind]
        cases hi : (tablesGet tables inventorySection).mapM buildItem with
        | none => rfl
        | some inv =>
          simp only [Option.some_bind]
          rw [mapM_none_of_mem buildSkill _ row hm (by simp [buildSkill, hid, hbad])]
          rfl
    · cases hf : (tablesGet tables featSection).mapM buildFeat with
      | none => rfl
      | some feats =>
        simp only [Option.some_bind]
        cases hi : (tablesGet tables inventorySection).mapM buildItem with
        | none => rfl
        | some inv =>
          simp only [Option.some_bind]
          cases hs : (tablesGet tables skillSection).mapM buildSkill with
          | none => rfl
          | some sks =>
            simp only [Option.some_bind]
            rw [mapM_none_of_mem buildRank _ row hm (by simp [buildRank, hid, hbad])]
            rfl
  · intro row item hsome hprice
    simp only [buildItem, Option.bind_eq_bind] at hsome
    cases hid : rowGet? row "ID" with
    | none => rw [hid] at hsome; simp at hsome
    | some s =>
      rw [hid] at hsome
      simp only [Option.some_bind] at hsome
      cases hv : pyInt s with
      | none => rw [hv] at hsome; simp at hsome
      | some v =>
        rw [hv] at hsome
        simp only [Option.some_bind] at hsome
        cases hn : rowGet? row "name" with
        | none => rw [hn] at hsome; simp at hsome
        | some n =>
          rw [hn] at hsome
          simp only [Option.some_bind] at hsome
          have hitem := Option.some.inj hsome
          rw [← hitem]
          exact hprice

/-- A one-table catalog whose single feat row has the non-numeric id `"x"`. -/
def badIdTables : Tables :=
  [(featSection, [[("ID", "x"), ("name", "A")]])]

/-- An inventory row with a valid id and a non-numeric price. -/
def badPriceRow : Row :=
  [("ID", "1"), ("name", "N"), ("price", "дорого")]

/-- C7, witness: the bad-id catalog fails to build, and the bad-price row
builds an item whose price is `None`. -/
theorem id_fatal_price_recovered_witness :
    Database.build badIdTables = none ∧
    (⟨1, "N", "", "", none⟩ : InventoryItem).price = none :=
  ⟨id_fatal_price_recovered.1 badIdTables [("ID", "x"), ("name", "A")] "x"
      (Or.inl (by decide)) (by decide) (by decide),
   id_fatal_price_recovered.2 badPriceRow ⟨1, "N", "", "", none⟩
      (by decide) (by decide)⟩

/-! ## Claim C8 -/

/-- C8: for a fixed catalog and a fixed-seed random source — modelled as two
runs whose injected streams agree pointwise and start at the same position —
`generate` followed by either renderer (plain text or styled document)
produces identical output.  The whole pipeline is a pure function of the
catalog and the stream; there is no other source of nondeterminism. -/
theorem generate_render_deterministic (db : Database) (s1 s2 : Nat → Nat) (p : Nat)
    (h : ∀ n, s1 n = s2 n) :
    (generate db ⟨s1, p⟩).map (fun q => format_sheet q.1) =
      (generate db ⟨s2, p⟩).map (fun q => format_sheet q.1) ∧
    (generate db ⟨s1, p⟩).map (fun q => format_sheet_html q.1) =
      (generate db ⟨s2, p⟩).map (fun q => format_sheet_html q.1) := by
  have hs : s1 = s2 := funext h
  subst hs
  exact ⟨rfl, rfl⟩

/-- C8, witness: two identically seeded runs over the mandatory-category
catalog render identically in both formats. -/
theorem generate_render_deterministic_witness :
    (generate mandatoryDb ⟨fun _ => 0, 0⟩).map (fun q => format_sheet q.1) =
      (generate mandatoryDb ⟨fun _ => 0, 0⟩).map (fun q => format_sheet q.1) ∧
    (generate mandatoryDb ⟨fun _ => 0, 0⟩).map (fun q => format_sheet_html q.1) =
      (generate mandatoryDb ⟨fun _ => 0, 0⟩).map (fun q => format_sheet_html q.1) :=
  generate_render_deterministic mandatoryDb (fun _ => 0) (fun _ => 0) 0 (fun _ => rfl)

/-! ## Claim C10 -/

/-- A feat row with HTML entity markup in both the name and description
cells. -/
def ampRow : Row := [("ID", "1"), ("name", "A&amp;B"), ("description", "A&amp;B")]

/-- C10, counterexample: the name cell keeps its raw `&amp;` while the
description cell is decoded — so "every cell passes through the
normalization step" is false: only `description` goes through
`_clean_cell`. -/
theorem name_cell_not_normalized :
    buildFeat ampRow = some ⟨1, "A&amp;B", "A&B", "", ""⟩ ∧
    clean_cell "A&amp;B" = "A&B" ∧
    ("A&amp;B" : String) ≠ clean_cell "A&amp;B" :=
  ⟨by decide, by decide, by decide⟩

/-- C10 (amended): in the record constructors only the description cell goes
through the full normalization step (`_clean_cell`: literal line-break
markup to newline, HTML entity decoding, trim); the name, type and roll-code
cells are only whitespace-stripped. -/
theorem only_description_normalized (row : Row) :
    (∀ f, buildFeat row = some f →
      f.description = clean_cell (rowGetD row "description" "") ∧
      (∀ n, rowGet? row "name" = some n → f.name = pyStrip n) ∧
      f.type = pyStrip (rowGetD row "type" "") ∧
      f.roll_code = pyStrip (rowGetD row "roll_code" "")) ∧
    (∀ it, buildItem row = some it →
      it.description = clean_cell (rowGetD row "description" "") ∧
      (∀ n, rowGet? row "name" = some n → it.name = pyStrip n) ∧
      it.type = pyStrip (rowGetD row "type" "")) := by
  constructor
  · intro f hsome
    simp only [buildFeat, Option.bind_eq_bind] at hsome
    cases hid : rowGet? row "ID" with
    | none => rw [hid] at hsome; simp at hsome
    | some s =>
      rw [hid] at hsome
      simp only [Option.some_bind] at hsome
      cases hv : pyInt s with
      | none => rw [hv] at hsome; simp at hsome
      | some v =>
        rw [hv] at hsome
        simp only [Option.some_bind] at hsome
        cases hn : rowGet? row "name" with
        | none => rw [hn] at hsome; simp at hsome
        | some n =>
          rw [hn] at hsome
          simp only [Option.some_bind] at hsome
          have hf := Option.some.inj hsome
          rw [← hf]
          refine ⟨rfl, ?_, rfl, rfl⟩
          intro n' hn'
          rw [← Option.some.inj hn']
  · intro it hsome
    simp only [buildItem, Option.bind_eq_bind] at hsome
    cases hid : rowGet? row "ID" with
    | none => rw [hid] at hsome; simp at hsome
    | some s =>
      rw [hid] at hsome
      simp only [Option.some_bind] at hsome
      cases hv : pyInt s with
      | none => rw [hv] at hsome; simp at hsome
      | some v =>
        rw [hv] at hsome
        simp only [Option.some_bind] at hsome
        cases hn : rowGet? row "name" with
        | none => rw [hn] at hsome; simp at hsome
        | some n =>
          rw [hn] at hsome
          simp only [Option.some_bind] at hsome
          have hf := Option.some.inj hsome
          rw [← hf]
          refine ⟨rfl, ?_, rfl⟩
          intro n' hn'
          rw [← Option.some.inj hn']

/-- A feat row with markup in the description and padding around the other
cells. -/
def paddedRow : Row :=
  [("ID", "2"), ("name", " N "), ("description", "a<br>b"), ("type", " T ")]

/-- C10, witness: on a concrete row, the built feat's description equals the
normalized cell while name and type are merely stripped. -/
theorem only_description_normalized_witness :
    (⟨2, "N", "a\nb", "T", ""⟩ : Feat).description =
      clean_cell (rowGetD paddedRow "description" "") ∧
    (∀ n, rowGet? paddedRow "name" = some n →
      (⟨2, "N", "a\nb", "T", ""⟩ : Feat).name = pyStrip n) ∧
    (⟨2, "N", "a\nb", "T", ""⟩ : Feat).type = pyStrip (rowGetD paddedRow "type" "") ∧
    (⟨2, "N", "a\nb", "T", ""⟩ : Feat).roll_code =
      pyStrip (rowGetD paddedRow "roll_code" "") :=
  (only_description_normalized paddedRow).1 _ (by decide)

/-! ## Claim C9: joining and width lemmas -/

theorem pyJoin_singleton (sep x : String) : pyJoin sep [x] = x := rfl

theorem pyJoin_cons (sep x : String) (ys : List String) (h : ys ≠ []) :
    pyJoin sep (x :: ys) = x ++ sep ++ pyJoin sep ys := by
  cases ys with
  | nil => exact absurd rfl h
  | cons y t => rfl

theorem pyJoin_append (sep : String) :
    ∀ (xs ys : List String), xs ≠ [] → ys ≠ [] →
      pyJoin sep (xs ++ ys) = pyJoin sep xs ++ sep ++ pyJoin sep ys := by
  intro xs
  induction xs with
  | nil => intro ys h _; exact absurd rfl h
  | cons x t ih =>
    intro ys _ hys
    cases t with
    | nil =>
      simp only [List.singleton_append, pyJoin_singleton]
      exact pyJoin_cons sep x ys hys
    | cons a t' =>
      have hne : (a :: t') ++ ys ≠ [] := by simp
      rw [List.cons_append, pyJoin_cons sep x _ hne,
        pyJoin_cons sep x (a :: t') (by simp), ih ys (by simp) hys]
      simp [String.append_assoc]

theorem pyJoin_flat :
    ∀ (gs : List (List String)), (∀ g ∈ gs, g ≠ []) →
      pyJoin "\n" (gs.map (pyJoin "\n")) = pyJoin "\n" gs.flatten := by
  intro gs
  induction gs with
  | nil => intro _; rfl
  | cons g rest ih =>
    intro hne
    have hg : g ≠ [] := hne g (List.mem_cons_self _ _)
    have hrest : ∀ x ∈ rest, x ≠ [] := fun x hx => hne x (List.mem_cons_of_mem _ hx)
    cases rest with
    | nil => simp [pyJoin_singleton]
    | cons g2 rest2 =>
      have hflat : ((g2 :: rest2).flatten : List String) ≠ [] := by
        simp only [ne_eq, List.flatten_eq_nil_iff]
        intro hall
        exact hrest g2 (List.mem_cons_self _ _) (hall g2 (List.mem_cons_self _ _))
      have hmapne : ((g2 :: rest2).map (pyJoin "\n")) ≠ [] := by simp
      rw [List.map_cons, pyJoin_cons _ _ _ hmapne, ih hrest]
      conv_rhs => rw [List.flatten_cons]
      rw [pyJoin_append _ g (g2 :: rest2).flatten hg hflat]

theorem interleaveSep_map (f : α → β) (sep : α) :
    ∀ l : List α, (interleaveSep sep l).map f = interleaveSep (f sep) (l.map f) := by
  intro l
  induction l with
  | nil => rfl
  | cons b rest ih =>
    cases rest with
    | nil => rfl
    | cons c rest2 =>
      simp only [interleaveSep, List.map_cons]
      rw [ih]
      rfl

theorem mem_interleaveSep (sep : α) :
    ∀ (l : List α) (x : α), x ∈ interleaveSep sep l → x = sep ∨ x ∈ l := by
  intro l
  induction l with
  | nil => intro x hx; simp [interleaveSep] at hx
  | cons b rest ih =>
    intro x hx
    cases rest with
    | nil =>
      simp only [interleaveSep, List.mem_singleton] at hx
      exact Or.inr (by simp [hx])
    | cons c rest2 =>
      simp only [interleaveSep, List.mem_cons] at hx
      rcases hx with hx | hx | hx
      · exact Or.inr (by simp [hx])
      · exact Or.inl hx
      · rcases ih x hx with h | h
        · exact Or.inl h
        · exact Or.inr (List.mem_cons_of_mem _ h)

theorem join_body (t : String) (m : List String) :
    t ++ "\n" ++ pyJoin "\n" m = pyJoin "\n" (t :: (if m = [] then [""] else m)) := by
  by_cases h : m = []
  · subst h; rfl
  · rw [if_neg h]
    cases m with
    | nil => exact absurd rfl h
    | cons a t' => rfl

theorem format_list_eq (title : String) (rows : List String) :
    format_list title rows = pyJoin "\n" (format_list_lines title rows) := by
  unfold format_list format_list_lines
  exact join_body _ _

theorem mapJoin_singletons (hl : List String) :
    (hl.map (fun h => ([h] : List String))).map (pyJoin "\n") = hl := by
  rw [List.map_map]
  have hid : ((pyJoin "\n") ∘ fun h : String => [h]) = id := funext (fun h => rfl)
  rw [hid, List.map_id]

theorem mapJoin_interleave (bl : List (String × List String)) :
    (interleaveSep [borderSep]
        (bl.map (fun p => format_list_lines p.1 p.2))).map (pyJoin "\n") =
      interleaveSep borderSep (bl.map (fun p => format_list p.1 p.2)) := by
  rw [interleaveSep_map (pyJoin "\n") [borderSep], List.map_map]
  have hcomp : ((pyJoin "\n") ∘ fun p : String × List String =>
      format_list_lines p.1 p.2) = fun p => format_list p.1 p.2 :=
    funext (fun p => (format_list_eq p.1 p.2).symm)
  rw [hcomp]
  rfl

theorem sheet_line_groups_ne_nil (sheet : CharacterSheet) :
    ∀ g ∈ sheet_line_groups sheet, g ≠ [] := by
  intro g hg
  unfold sheet_line_groups at hg
  rcases List.mem_append.mp hg with hg | hg
  · rcases List.mem_append.mp hg with hg | hg
    · obtain ⟨h, _, rfl⟩ := List.mem_map.mp hg
      simp
    · rcases mem_interleaveSep _ _ _ hg with hg | hg
      · subst hg; simp
      · obtain ⟨p, _, rfl⟩ := List.mem_map.mp hg
        simp [format_list_lines]
  · simp only [List.mem_singleton] at hg
    subst hg
    simp

theorem format_sheet_eq_lines (sheet : CharacterSheet) :
    format_sheet sheet = pyJoin "\n" (sheet_lines sheet) := by
  have h2 : sheet_lines sheet = (sheet_line_groups sheet).flatten := rfl
  rw [h2, ← pyJoin_flat _ (sheet_line_groups_ne_nil sheet)]
  have h3 : sheet_line_groups sheet =
      ((header_lines sheet).map (fun h => [h]) ++
        interleaveSep [borderSep]
          ((block_order (build_sections sheet)).map
            (fun p => format_list_lines p.1 p.2))) ++
      [[borderBottom]] := rfl
  rw [h3, List.map_append, List.map_append, mapJoin_singletons, mapJoin_interleave]
  have h4 : ([[borderBottom]] : List (List String)).map (pyJoin "\n") = [borderBottom] := rfl
  rw [h4, List.append_assoc]
  rfl

theorem length_mk (l : List Char) : (String.mk l).length = l.length := rfl

theorem padRight_length (s : String) (n : Nat) :
    (padRight s n).length = max n s.length := by
  simp only [padRight, String.length_append, length_mk, List.length_replicate]
  omega

theorem padded_line_length (w : String) (h : w.length ≤ 56) :
    ("║ " ++ padRight w (sheetWidth - 4) ++ " ║").length = 60 := by
  simp only [String.length_append, padRight_length]
  have h1 : ("║ " : String).length = 2 := rfl
  have h3 : (" ║" : String).length = 2 := rfl
  have h4 : sheetWidth - 4 = 56 := rfl
  rw [h1, h3, h4]
  omega

theorem format_line_length (label value : String)
    (hl : label.length ≤ 17)
    (hv : (normalize_text "—" (some value)).length ≤ 37) :
    (format_line label value).length = 60 := by
  have e : format_line label value =
      "║ " ++ padRight (label ++ ":") 18 ++ " " ++
        padRight (normalize_text "—" (some value)) 37 ++ " ║" := rfl
  rw [e]
  simp only [String.length_append, padRight_length]
  have h0 : (":" : String).length = 1 := rfl
  have h1 : ("║ " : String).length = 2 := rfl
  have h2 : (" " : String).length = 1 := rfl
  have h3 : (" ║" : String).length = 2 := rfl
  rw [h0, h1, h2, h3]
  omega

theorem header_lines_len (sheet : CharacterSheet)
    (hname : (normalize_text "—" (some sheet.name)).length ≤ 37)
    (hmeaning : (normalize_text "—" (some (pyOr sheet.name_meaning "—"))).length ≤ 37)
    (hconcept : (normalize_text "—" (some sheet.concept.name)).length ≤ 37) :
    ∀ l ∈ header_lines sheet, l.length = 60 := by
  intro l hl
  unfold header_lines at hl
  simp only [List.mem_cons, List.not_mem_nil, or_false] at hl
  rcases hl with rfl | rfl | rfl | rfl | rfl | rfl | rfl | rfl
  · decide
  · decide
  · decide
  · exact format_line_length _ _ (by decide) hname
  · by_cases hg : sheet.gender = "Ж"
    · rw [if_pos hg]
      exact format_line_length _ _ (by decide) (by decide)
    · rw [if_neg hg]
      exact format_line_length _ _ (by decide) (by decide)
  · exact format_line_length _ _ (by decide) hmeaning
  · exact format_line_length _ _ (by decide) hconcept
  · decide

theorem format_list_lines_len (title : String) (rows : List String)
    (ht : title.length ≤ 56) (hrows : rows ≠ []) :
    ∀ l ∈ format_list_lines title rows, l.length = 60 := by
  intro l hl
  unfold format_list_lines at hl
  simp only [List.mem_cons] at hl
  rcases hl with rfl | hl
  · exact padded_line_length title ht
  · set wrapped := ((rows.map (fun row => "• " ++ row)).map (fun line =>
        let w := pyWrap (sheetWidth - 4) line
        if w = [] then [""] else w)).flatten with hwrapped
    have hwne : wrapped.map
        (fun line => "║ " ++ padRight line (sheetWidth - 4) ++ " ║") ≠ [] := by
      simp only [ne_eq, List.map_eq_nil_iff]
      rw [hwrapped]
      simp only [List.flatten_eq_nil_iff]
      intro hall
      cases rows with
      | nil => exact hrows rfl
      | cons a t =>
        have hmem : (let w := pyWrap (sheetWidth - 4) ("• " ++ a)
            if w = [] then [""] else w) ∈
            ((a :: t).map (fun row => "• " ++ row)).map (fun line =>
              let w := pyWrap (sheetWidth - 4) line
              if w = [] then [""] else w) := by
          simp
        have := hall _ hmem
        by_cases hw : pyWrap (sheetWidth - 4) ("• " ++ a) = []
        · simp only [hw, if_pos] at this
          exact absurd this (by simp)
        · simp only [if_neg hw] at this
          exact hw this
    rw [if_neg hwne] at hl
    obtain ⟨w, hw, rfl⟩ := List.mem_map.mp hl
    have hle : w.length ≤ 56 := by
      rw [hwrapped] at hw
      rw [List.mem_flatten] at hw
      obtain ⟨grp, hgrp, hwgrp⟩ := hw
      obtain ⟨line, _, rfl⟩ := List.mem_map.mp hgrp
      by_cases hnil : pyWrap (sheetWidth - 4) line = []
      · simp only [hnil, if_pos] at hwgrp
        have : w = "" := by simpa using hwgrp
        simp [this]
      · simp only [if_neg hnil] at hwgrp
        exact pyWrap_le 56 (by omega) line w hwgrp
    exact padded_line_length w hle

/-- C9 (amended): every line of the plain-text renderer's output has exactly
the configured width 60 provided the four header values fit the header
column (their normalized forms are at most 37 characters) and the problems
and skills lists are nonempty (an empty section list makes the source emit
one bare empty line after the section title); all body lines, including
wrapped continuation lines, are always exactly 60 regardless of content. -/
theorem format_sheet_fixed_width (sheet : CharacterSheet)
    (hname : (normalize_text "—" (some sheet.name)).length ≤ 37)
    (hmeaning : (normalize_text "—" (some (pyOr sheet.name_meaning "—"))).length ≤ 37)
    (hconcept : (normalize_text "—" (some sheet.concept.name)).length ≤ 37)
    (hproblems : sheet.problems ≠ [])
    (hskills : sheet.skills ≠ []) :
    format_sheet sheet = pyJoin "\n" (sheet_lines sheet) ∧
    ∀ l ∈ sheet_lines sheet, l.length = sheetWidth := by
  refine ⟨format_sheet_eq_lines sheet, ?_⟩
  intro l hl
  show l.length = 60
  unfold sheet_lines at hl
  rw [List.mem_flatten] at hl
  obtain ⟨g, hg, hlg⟩ := hl
  unfold sheet_line_groups at hg
  rcases List.mem_append.mp hg with hg | hg
  · rcases List.mem_append.mp hg with hg | hg
    · obtain ⟨h, hh, rfl⟩ := List.mem_map.mp hg
      have : l = h := by simpa using hlg
      rw [this]
      exact header_lines_len sheet hname hmeaning hconcept h hh
    · rcases mem_interleaveSep _ _ _ hg with hg | hg
      · subst hg
        have : l = borderSep := by simpa using hlg
        rw [this]
        decide
      · obtain ⟨p, hp, rfl⟩ := List.mem_map.mp hg
        simp only [block_order, List.mem_cons, List.not_mem_nil, or_false] at hp
        rcases hp with rfl | rfl | rfl | rfl | rfl | rfl | rfl | rfl | rfl | rfl
        · exact format_list_lines_len "Биография" _ (by decide) (by simp [build_sections]) l hlg
        · exact format_list_lines_len "Мотивация" _ (by decide) (by simp [build_sections]) l hlg
        · exact format_list_lines_len "Внешность" _ (by decide) (by simp [build_sections]) l hlg
        · refine format_list_lines_len "Черты характера" _ (by decide) ?_ l hlg
          simp only [build_sections, ne_eq, List.map_eq_nil_iff]
          exact hproblems
        · exact format_list_lines_len "Аугментации" _ (by decide) (by simp [build_sections]) l hlg
        · refine format_list_lines_len "Навыки" _ (by decide) ?_ l hlg
          simp only [build_sections, ne_eq, List.map_eq_nil_iff]
          exact hskills
        · exact format_list_lines_len "Снаряжение" _ (by decide) (by simp [build_sections]) l hlg
        · exact format_list_lines_len "Образ жизни" _ (by decide) (by simp [build_sections]) l hlg
        · exact format_list_lines_len "Транспорт" _ (by decide) (by simp [build_sections]) l hlg
        · exact format_list_lines_len "Ранг" _ (by decide) (by simp [build_sections]) l hlg
  · simp only [List.mem_singleton] at hg
    subst hg
    have : l = borderBottom := by simpa using hlg
    rw [this]
    decide

/-- A sheet whose name is 38 characters long — one character more than the
header value column holds. -/
def longNameSheet : CharacterSheet :=
  { name := "AAAAAAAAAAAAAAAAAAAAAAAAAAAAAAAAAAAAAA", gender := "М", name_meaning := "",
    concept := ⟨1, "C", "", "Концепт", ""⟩,
    background := ⟨2, "B", "", "Предыстория", ""⟩, feud := none,
    motivation := ⟨3, "M", "", "Мотивация", ""⟩,
    clothing := ⟨4, "O", "", "Одежда", ""⟩,
    features := [], problems := [⟨5, "P", "", "", ""⟩],
    augmentations := [], augmentation_roll := 1,
    skills := [⟨6, "S", "", ""⟩], rank := ⟨0, "", "", "", ""⟩,
    armor := none, primary_weapon := none, backup_weapon := none,
    support_items := [], lifestyle := none, transport := none }

/-- C9, counterexample: `format_line` pads its value but never truncates it,
so a sheet with a 38-character name produces a name header line of width 61,
not the configured 60 — the fixed-width claim fails for arbitrary
CharacterSheet inputs. -/
theorem format_sheet_width_cex :
    format_sheet longNameSheet = pyJoin "\n" (sheet_lines longNameSheet) ∧
    ((sheet_lines longNameSheet).get? 3).map String.length = some 61 ∧
    (61 : Nat) ≠ sheetWidth :=
  ⟨format_sheet_eq_lines longNameSheet, by decide, by decide⟩

/-- A sheet with short header values and nonempty problems and skills. -/
def modestSheet : CharacterSheet :=
  { name := "Хидео", gender := "М", name_meaning := "щедрый",
    concept := ⟨1, "Тень", "", "Концепт", ""⟩,
    background := ⟨2, "Ронин", "", "Предыстория", ""⟩, feud := none,
    motivation := ⟨3, "Деньги", "", "Мотивация", ""⟩,
    clothing := ⟨4, "Плащ", "", "Одежда", ""⟩,
    features := [], problems := [⟨5, "Гордость", "", "Личностные проблемы", ""⟩],
    augmentations := [], augmentation_roll := 3,
    skills := [⟨6, "Айкидо", "", ""⟩], rank := ⟨0, "", "", "", ""⟩,
    armor := none, primary_weapon := none, backup_weapon := none,
    support_items := [], lifestyle := none, transport := none }

/-- C9, witness: a sheet with fitting header values renders with every line
exactly 60 wide. -/
theorem format_sheet_fixed_width_witness :
    format_sheet modestSheet = pyJoin "\n" (sheet_lines modestSheet) ∧
    ∀ l ∈ sheet_lines modestSheet, l.length = sheetWidth :=
  format_sheet_fixed_width modestSheet (by decide) (by decide) (by decide)
    (by decide) (by decide)

end Shinobi
